import Mathlib

/-
  Verification of the chart core of the scan-chart repository.

  This file gives a shallow embedding, in Lean 4, of the parts of the
  TypeScript source that the verified claims are about:

  * src/chart/track-hasher.ts     (calculateTrackHash, pruneEmptyPhrases)
  * src/chart/notes-parser.ts     (snapChords, sortAndFixInvalidNoteOverlaps,
                                   sortAndFixInvalidEventOverlaps,
                                   sortAndFixInvalidFlexLaneOverlaps,
                                   getTimedTempos, setEventOrEventGroupMsTimes,
                                   resolveFretModifiers forceOpen handling)
  * src/chart/midi-parser.ts      (header validation, sync-track extraction,
                                   fixLegacyGhStarPower, track-data assembly)
  * src/chart/chart-parser.ts     (time-signature and tempo sync stages,
                                   mergeSoloEvents, track-data assembly)

  Conventions used throughout:
  * JavaScript numbers that are always integers in the source (ticks, lengths,
    enum codes, bitmask flags) are embedded as Nat; quantities that the source
    subtracts (possibly below zero) are embedded as Int where the sign matters.
  * Millisecond times, which the source computes with IEEE-754 doubles, are
    embedded as exact rationals; the claims settled here are order claims,
    which are stated over the same formulas in exact arithmetic.
  * The IEEE-754 encoding of a beats-per-minute value that the hasher writes
    with DataView.setFloat64 is carried opaquely as its 64-bit pattern
    (field bpmBits); the claims do not constrain that encoding itself, only
    its width and position in the serialized buffer.
  * Imperative loops that push to arrays become structural recursions with an
    accumulator; loops that mutate earlier array elements in place become
    recursions over an explicit list state updated with List.set.
-/

namespace ScanChart

/-! ## Instruments and difficulties (src/interfaces.ts) -/

/-- The ten playable instruments, in declaration order of the source. -/
inductive Instrument where
  | guitar | guitarcoop | rhythm | bass | drums | keys
  | guitarghl | guitarcoopghl | rhythmghl | bassghl
deriving DecidableEq, Repr

/-- The four difficulties, in declaration order of the source. -/
inductive Difficulty where
  | expert | hard | medium | easy
deriving DecidableEq, Repr

/-- Source list `difficulties = ['expert', 'hard', 'medium', 'easy']`. -/
def difficulties : List Difficulty := [.expert, .hard, .medium, .easy]

/-- Grouping of instruments used by the .mid parser (instrumentTypes). -/
inductive InstrumentType where
  | sixFret | fiveFret | drums
deriving DecidableEq, Repr

/-- Source function getInstrumentType. -/
def getInstrumentType (instrument : Instrument) : InstrumentType :=
  if instrument = .drums then .drums
  else if instrument = .guitarghl ∨ instrument = .guitarcoopghl
      ∨ instrument = .rhythmghl ∨ instrument = .bassghl then .sixFret
  else .fiveFret

/-! ## Event type, note type and note flag constants
    (src/chart/note-parsing-interfaces.ts).  The numeric values are copied
    from the source tables; `open` is a Lean keyword, so those two constants
    are named `openNote` here. -/

namespace eventTypes

def starPower : Nat := 0
def soloSection : Nat := 1
def rejectedStarPower : Nat := 2
def soloSectionStart : Nat := 3
def soloSectionEnd : Nat := 4
def openNote : Nat := 5
def green : Nat := 6
def red : Nat := 7
def yellow : Nat := 8
def blue : Nat := 9
def orange : Nat := 10
def black1 : Nat := 11
def black2 : Nat := 12
def black3 : Nat := 13
def white1 : Nat := 14
def white2 : Nat := 15
def white3 : Nat := 16
def kick : Nat := 17
def kick2x : Nat := 18
def redDrum : Nat := 19
def yellowDrum : Nat := 20
def blueDrum : Nat := 21
def fiveOrangeFourGreenDrum : Nat := 22
def fiveGreenDrum : Nat := 23
def flexLaneSingle : Nat := 24
def flexLaneDouble : Nat := 25
def freestyleSection : Nat := 26
def forceOpen : Nat := 27
def forceTap : Nat := 28
def forceStrum : Nat := 29
def forceHopo : Nat := 30
def forceUnnatural : Nat := 31
def forceFlam : Nat := 32
def yellowTomMarker : Nat := 33
def blueTomMarker : Nat := 34
def greenTomMarker : Nat := 35
def yellowCymbalMarker : Nat := 36
def blueCymbalMarker : Nat := 37
def greenCymbalMarker : Nat := 38
def redGhost : Nat := 39
def yellowGhost : Nat := 40
def blueGhost : Nat := 41
def fiveOrangeFourGreenGhost : Nat := 42
def fiveGreenGhost : Nat := 43
def kickGhost : Nat := 44
def redAccent : Nat := 45
def yellowAccent : Nat := 46
def blueAccent : Nat := 47
def fiveOrangeFourGreenAccent : Nat := 48
def fiveGreenAccent : Nat := 49
def kickAccent : Nat := 50
def discoFlipOff : Nat := 51
def discoFlipOn : Nat := 52
def discoNoFlipOn : Nat := 53
def enableChartDynamics : Nat := 54

end eventTypes

namespace noteTypes

def openNote : Nat := 1
def green : Nat := 2
def red : Nat := 3
def yellow : Nat := 4
def blue : Nat := 5
def orange : Nat := 6
def black1 : Nat := 7
def black2 : Nat := 8
def black3 : Nat := 9
def white1 : Nat := 10
def white2 : Nat := 11
def white3 : Nat := 12
def kick : Nat := 13
def redDrum : Nat := 14
def yellowDrum : Nat := 15
def blueDrum : Nat := 16
def greenDrum : Nat := 17

end noteTypes

namespace noteFlags

def noFlag : Nat := 0
def strum : Nat := 1
def hopo : Nat := 2
def tap : Nat := 4
def doubleKick : Nat := 8
def tom : Nat := 16
def cymbal : Nat := 32
def discoNoflip : Nat := 64
def disco : Nat := 128
def flam : Nat := 256
def ghost : Nat := 512
def accent : Nat := 1024

end noteFlags

/-! ## Core data structures of the normalized chart (ParsedChart).
    Fields that none of the embedded functions read (metadata, lyrics flags,
    sections, end events, ms times on phrases) are omitted from the records;
    every field below is read by at least one embedded function. -/

/-- A normalized note of a track (NoteEvent without its ms fields, which the
    track hasher does not read). -/
structure Note where
  tick : Nat
  length : Nat
  type : Nat
  flags : Nat
deriving DecidableEq, Repr

/-- A tempo marker as far as the track hasher reads it.  bpmBits is the
    64-bit IEEE-754 pattern of the beats-per-minute double that
    DataView.setFloat64 would write. -/
structure Tempo where
  tick : Nat
  bpmBits : Nat
deriving DecidableEq, Repr

/-- A time-signature marker. -/
structure TimeSignature where
  tick : Nat
  numerator : Nat
  denominator : Nat
deriving DecidableEq, Repr

/-- A star-power or solo phrase. -/
structure Phrase where
  tick : Nat
  length : Nat
deriving DecidableEq, Repr

/-- A flex-lane phrase. -/
structure FlexLane where
  tick : Nat
  length : Nat
  isDouble : Bool
deriving DecidableEq, Repr

/-- A drum-freestyle phrase. -/
structure FreestyleSection where
  tick : Nat
  length : Nat
  isCoda : Bool
deriving DecidableEq, Repr

/-- One entry of ParsedChart.trackData. -/
structure TrackData where
  instrument : Instrument
  difficulty : Difficulty
  starPowerSections : List Phrase
  soloSections : List Phrase
  flexLanes : List FlexLane
  drumFreestyleSections : List FreestyleSection
  noteEventGroups : List (List Note)
deriving DecidableEq, Repr

/-- The fields of ParsedChart that calculateTrackHash reads. -/
structure ParsedChart where
  resolution : Nat
  tempos : List Tempo
  timeSignatures : List TimeSignature
  trackData : List TrackData
deriving DecidableEq, Repr

/-- A raw track event (tick, length, EventType code), shared by the .chart
    parser output and the .mid per-difficulty streams.  The .mid variant also
    carries velocity and channel, but none of the functions embedded here read
    those two fields, so they are omitted. -/
structure TrackEventR where
  tick : Nat
  length : Nat
  type : Nat
deriving DecidableEq, Repr

/-! ## Little-endian byte serialization (the BTRACK buffer).
    The source writes into a preallocated ArrayBuffer at strictly increasing
    offsets; each DataView write of k bytes at the running offset corresponds
    to appending k bytes here. -/

/-- The k little-endian bytes of a natural number (mod 2^(8k)). -/
def bytesLE : Nat → Nat → List Nat
  | 0, _ => []
  | k + 1, n => n % 256 :: bytesLE k (n / 256)

/-- DataView.setUint32 little-endian.  setInt32 writes the same four bytes
    for the non-negative values (section counts) the hasher passes to it. -/
def u32le (n : Nat) : List Nat := bytesLE 4 n

/-- DataView.setUint32 big-endian (used only for the CHNF magic). -/
def u32be (n : Nat) : List Nat := (bytesLE 4 n).reverse

/-- DataView.setBigInt64 little-endian of a non-negative tick or length, and
    DataView.setFloat64 of a double given by its 64-bit pattern. -/
def u64le (n : Nat) : List Nat := bytesLE 8 n

/-- Serialization of one tempo record: (tick : i64, bpm : f64). -/
def serializeTempo (t : Tempo) : List Nat := u64le t.tick ++ u64le t.bpmBits

/-- Serialization of one time-signature record: (tick : i64, num : u32, denom : u32). -/
def serializeTimeSignature (ts : TimeSignature) : List Nat :=
  u64le ts.tick ++ u32le ts.numerator ++ u32le ts.denominator

/-- Serialization of one star-power or solo record: (tick : i64, length : i64). -/
def serializePhrase (p : Phrase) : List Nat := u64le p.tick ++ u64le p.length

/-- Serialization of one flex-lane record: (tick : i64, length : i64, isDouble : u8). -/
def serializeFlexLane (f : FlexLane) : List Nat :=
  u64le f.tick ++ u64le f.length ++ [if f.isDouble then 1 else 0]

/-- Serialization of one drum-freestyle record: (tick : i64, length : i64, isCoda : u8). -/
def serializeFreestyle (d : FreestyleSection) : List Nat :=
  u64le d.tick ++ u64le d.length ++ [if d.isCoda then 1 else 0]

/-- Serialization of one note record: (tick : i64, length : i64, type : u32, flags : u32). -/
def serializeNote (n : Note) : List Nat :=
  u64le n.tick ++ u64le n.length ++ u32le n.type ++ u32le n.flags

/-- A length-prefixed section: u32 record count, then the records in order. -/
def lenPrefixedSection {α : Type} (f : α → List Nat) (l : List α) : List Nat :=
  u32le l.length ++ (l.map f).flatten

/-! ## Deduplication of tempos and time signatures in the hasher.
    Source: `_.chain(list).sortBy(t => t.tick).reverse().sortedUniqBy(t => t.tick).reverse()`.
    lodash sortBy is a stable ascending sort; sortedUniqBy keeps an element
    when its key differs from the key of the last KEPT element. -/

/-- Stable ascending sort by tick (lodash sortBy). -/
def sortByTick {α : Type} (tickOf : α → Nat) (l : List α) : List α :=
  l.insertionSort (fun a b => tickOf a ≤ tickOf b)

/-- lodash sortedUniqBy after the first element: keep an element iff its key
    differs from the key of the last kept element (prev). -/
def sortedUniqByGo {α : Type} (tickOf : α → Nat) (prev : α) : List α → List α
  | [] => []
  | y :: ys =>
    if tickOf y = tickOf prev then sortedUniqByGo tickOf prev ys
    else y :: sortedUniqByGo tickOf y ys

/-- lodash sortedUniqBy (the first element is always kept). -/
def sortedUniqBy {α : Type} (tickOf : α → Nat) : List α → List α
  | [] => []
  | x :: xs => x :: sortedUniqByGo tickOf x xs

/-- The tempoData / timeSignatureData computation of calculateTrackHash:
    sortBy tick, reverse, sortedUniqBy tick, reverse. -/
def dedupKeepLastByTick {α : Type} (tickOf : α → Nat) (l : List α) : List α :=
  (sortedUniqBy tickOf (sortByTick tickOf l).reverse).reverse

/-- Specification-level description of the same computation on an input that
    is already sorted by tick: keep a marker iff no later marker in the list
    has the same tick. -/
def lastPerTick {α : Type} (tickOf : α → Nat) : List α → List α
  | [] => []
  | x :: xs =>
    if xs.any (fun y => tickOf y = tickOf x) then lastPerTick tickOf xs
    else x :: lastPerTick tickOf xs

/-! ## pruneEmptyPhrases (src/chart/track-hasher.ts).
    The source walks a persistent noteIndex over the note groups:
    it first skips groups whose first note is strictly before the phrase tick,
    then keeps the phrase iff the next group starts before
    `phrase.tick + (phrase.length || 1)`. -/

/-- The tick of the first note of a group (the source reads notes[i][0].tick;
    groups produced by the pipeline are non-empty, so the default is never
    read under the hypotheses of the theorems below). -/
def headTick (g : List Note) : Nat :=
  match g with
  | [] => 0
  | n :: _ => n.tick

/-- The keep test of pruneEmptyPhrases: after skipping the groups strictly
    before the phrase, the phrase is kept iff a group remains and starts
    before `phrase.tick + (phrase.length || 1)`. -/
def keepPhrase {α : Type} (tickOf lenOf : α → Nat) (p : α) (rest : List (List Note)) : Bool :=
  match rest with
  | [] => false
  | g :: _ => decide (headTick g < tickOf p + (if lenOf p = 0 then 1 else lenOf p))

/-- Source function pruneEmptyPhrases, generic over the phrase record.
    The persistent noteIndex becomes the group-list argument that both
    branches pass on after the dropWhile. -/
def pruneEmptyPhrases {α : Type} (tickOf lenOf : α → Nat) :
    List α → List (List Note) → List α
  | [], _ => []
  | p :: ps, groups =>
    let rest := groups.dropWhile (fun g => decide (headTick g < tickOf p))
    if keepPhrase tickOf lenOf p rest then p :: pruneEmptyPhrases tickOf lenOf ps rest
    else pruneEmptyPhrases tickOf lenOf ps rest

/-- Specification-level pruning, in the words of the spec: a phrase is kept
    iff some note lies strictly inside the half-open window
    [tick, tick + max(length, 1)). -/
def specPrune {α : Type} (tickOf lenOf : α → Nat)
    (phrases : List α) (groups : List (List Note)) : List α :=
  phrases.filter (fun p =>
    groups.any (fun g => g.any (fun n =>
      decide (tickOf p ≤ n.tick) && decide (n.tick < tickOf p + max (lenOf p) 1))))

/-! ## calculateTrackHash (src/chart/track-hasher.ts).
    The BLAKE3 hash and base64url encoding are external library calls applied
    to the serialized buffer; the embedding returns the buffer itself (the
    btrack field of the source result).  The error string is the one thrown
    by the source. -/

/-- The serialized buffer for a found track: header, then the seven
    length-prefixed sections, with the hasher deduplication applied to the
    tempos and time signatures and pruneEmptyPhrases applied to the
    star-power, solo and flex-lane tables (the drum-freestyle table is
    serialized as is). -/
def serializeFoundTrack (parsedChart : ParsedChart) (trackData : TrackData) : List Nat :=
  u32be 0x43484E46 ++ u32le 20240320 ++ u32le parsedChart.resolution
    ++ lenPrefixedSection serializeTempo (dedupKeepLastByTick Tempo.tick parsedChart.tempos)
    ++ lenPrefixedSection serializeTimeSignature (dedupKeepLastByTick TimeSignature.tick parsedChart.timeSignatures)
    ++ lenPrefixedSection serializePhrase
      (pruneEmptyPhrases Phrase.tick Phrase.length trackData.starPowerSections trackData.noteEventGroups)
    ++ lenPrefixedSection serializePhrase
      (pruneEmptyPhrases Phrase.tick Phrase.length trackData.soloSections trackData.noteEventGroups)
    ++ lenPrefixedSection serializeFlexLane
      (pruneEmptyPhrases FlexLane.tick FlexLane.length trackData.flexLanes trackData.noteEventGroups)
    ++ lenPrefixedSection serializeFreestyle trackData.drumFreestyleSections
    ++ lenPrefixedSection serializeNote trackData.noteEventGroups.flatten

/-- Source function calculateTrackHash, returning the serialized BTRACK
    buffer (the hash is BLAKE3 of exactly these bytes). -/
def calculateTrackHash (parsedChart : ParsedChart)
    (instrument : Instrument) (difficulty : Difficulty) : Except String (List Nat) :=
  match parsedChart.trackData.find? (fun t =>
      decide (t.instrument = instrument) && decide (t.difficulty = difficulty)) with
  | none => .error "Track with specified instrument or difficulty was not found."
  | some trackData => .ok (serializeFoundTrack parsedChart trackData)

/-- The buffer layout asserted by claim C1, written from the words of the
    claim: last-per-tick deduplication for tempos and time signatures, and
    EVERY phrase table (including drum freestyle) pruned against the notes. -/
def claimedTrackBytes (parsedChart : ParsedChart) (t : TrackData) : List Nat :=
  u32be 0x43484E46 ++ u32le 20240320 ++ u32le parsedChart.resolution
    ++ lenPrefixedSection serializeTempo (lastPerTick Tempo.tick parsedChart.tempos)
    ++ lenPrefixedSection serializeTimeSignature (lastPerTick TimeSignature.tick parsedChart.timeSignatures)
    ++ lenPrefixedSection serializePhrase (specPrune Phrase.tick Phrase.length t.starPowerSections t.noteEventGroups)
    ++ lenPrefixedSection serializePhrase (specPrune Phrase.tick Phrase.length t.soloSections t.noteEventGroups)
    ++ lenPrefixedSection serializeFlexLane (specPrune FlexLane.tick FlexLane.length t.flexLanes t.noteEventGroups)
    ++ lenPrefixedSection serializeFreestyle (specPrune FreestyleSection.tick FreestyleSection.length t.drumFreestyleSections t.noteEventGroups)
    ++ lenPrefixedSection serializeNote t.noteEventGroups.flatten

/-- The buffer layout the code actually produces, in specification terms:
    as claimedTrackBytes, except that the drum-freestyle table is serialized
    verbatim, without pruning. -/
def amendedTrackBytes (parsedChart : ParsedChart) (t : TrackData) : List Nat :=
  u32be 0x43484E46 ++ u32le 20240320 ++ u32le parsedChart.resolution
    ++ lenPrefixedSection serializeTempo (lastPerTick Tempo.tick parsedChart.tempos)
    ++ lenPrefixedSection serializeTimeSignature (lastPerTick TimeSignature.tick parsedChart.timeSignatures)
    ++ lenPrefixedSection serializePhrase (specPrune Phrase.tick Phrase.length t.starPowerSections t.noteEventGroups)
    ++ lenPrefixedSection serializePhrase (specPrune Phrase.tick Phrase.length t.soloSections t.noteEventGroups)
    ++ lenPrefixedSection serializeFlexLane (specPrune FlexLane.tick FlexLane.length t.flexLanes t.noteEventGroups)
    ++ lenPrefixedSection serializeFreestyle t.drumFreestyleSections
    ++ lenPrefixedSection serializeNote t.noteEventGroups.flatten

/-! ## Claim C7: the hasher errs exactly when the requested track is absent. -/

/-- C7 (confirmed): calculateTrackHash returns an error if and only if the
    parsed chart has no track with the requested instrument and difficulty;
    whenever such a track exists it returns the serialized track bytes
    (whose BLAKE3/base64url hash the source then computes) without error. -/
theorem calculateTrackHash_ok_iff_track_exists
    (parsedChart : ParsedChart) (instrument : Instrument) (difficulty : Difficulty) :
    (calculateTrackHash parsedChart instrument difficulty).isOk = true ↔
      ∃ t ∈ parsedChart.trackData, t.instrument = instrument ∧ t.difficulty = difficulty := by
  unfold calculateTrackHash
  rcases hfind : parsedChart.trackData.find? (fun t =>
      decide (t.instrument = instrument) && decide (t.difficulty = difficulty)) with _ | t
  · rw [hfind]
    simp only [Except.isOk, Except.toBool]
    constructor
    · intro h; exact absurd h (by simp)
    · rintro ⟨t, hmem, hi, hd⟩
      have := List.find?_eq_none.mp hfind t hmem
      simp [hi, hd] at this
  · rw [hfind]
    simp only [Except.isOk, Except.toBool]
    constructor
    · intro _
      refine ⟨t, List.mem_of_find?_eq_some hfind, ?_⟩
      have := List.find?_some hfind
      simpa using this
    · intro _; trivial

/-! ## Equivalence of the hasher deduplication with last-per-tick keeping. -/

theorem sortedUniqByGo_append {α : Type} (tickOf : α → Nat) (x : α) :
    ∀ (ys : List α) (prev : α),
      ys.Pairwise (fun a b => tickOf b ≤ tickOf a) →
      (∀ z ∈ ys, tickOf z ≤ tickOf prev) →
      (∀ z ∈ ys, tickOf x ≤ tickOf z) →
      tickOf x ≤ tickOf prev →
      sortedUniqByGo tickOf prev (ys ++ [x]) =
        if tickOf prev = tickOf x ∨ ∃ z ∈ ys, tickOf z = tickOf x
        then sortedUniqByGo tickOf prev ys
        else sortedUniqByGo tickOf prev ys ++ [x] := by
  intro ys
  induction ys with
  | nil =>
    intro prev _ _ _ hxp
    simp only [List.nil_append, sortedUniqByGo]
    by_cases h : tickOf x = tickOf prev
    · simp [h, sortedUniqByGo]
    · simp [h, Ne.symm h, sortedUniqByGo]
  | cons z zs ih =>
    intro prev hpw hle hxle hxp
    have hzs_pw : zs.Pairwise (fun a b => tickOf b ≤ tickOf a) := hpw.tail
    have hz_le_prev : tickOf z ≤ tickOf prev := hle z (by simp)
    have hzs_le_z : ∀ w ∈ zs, tickOf w ≤ tickOf z := fun w hw => List.rel_of_pairwise_cons hpw hw
    have hx_le_z : tickOf x ≤ tickOf z := hxle z (by simp)
    have hx_le_zs : ∀ w ∈ zs, tickOf x ≤ tickOf w := fun w hw => hxle w (by simp [hw])
    by_cases h : tickOf z = tickOf prev
    · have lhs : sortedUniqByGo tickOf prev ((z :: zs) ++ [x]) = sortedUniqByGo tickOf prev (zs ++ [x]) := by
        simp [sortedUniqByGo, h]
      rw [lhs, ih prev hzs_pw (fun w hw => le_trans (hzs_le_z w hw) (le_of_eq h)) hx_le_zs hxp]
      have hcond : (tickOf prev = tickOf x ∨ ∃ w ∈ zs, tickOf w = tickOf x) ↔
          (tickOf prev = tickOf x ∨ ∃ w ∈ z :: zs, tickOf w = tickOf x) := by
        constructor
        · rintro (hc | ⟨w, hw, hwx⟩)
          · exact Or.inl hc
          · exact Or.inr ⟨w, by simp [hw], hwx⟩
        · rintro (hc | ⟨w, hw, hwx⟩)
          · exact Or.inl hc
          · rcases List.mem_cons.mp hw with rfl | hw2
            · exact Or.inl (h ▸ hwx ▸ rfl)
            · exact Or.inr ⟨w, hw2, hwx⟩
      by_cases hc : tickOf prev = tickOf x ∨ ∃ w ∈ z :: zs, tickOf w = tickOf x
      · rw [if_pos (hcond.mpr hc), if_pos hc]
        simp [sortedUniqByGo, h]
      · rw [if_neg (fun hc2 => hc (hcond.mp hc2)), if_neg hc]
        simp [sortedUniqByGo, h]
    · have hprev_ne_x : tickOf prev ≠ tickOf x := by
        intro heq
        exact h (le_antisymm hz_le_prev (heq ▸ hx_le_z))
      have lhs : sortedUniqByGo tickOf prev ((z :: zs) ++ [x]) = z :: sortedUniqByGo tickOf z (zs ++ [x]) := by
        simp [sortedUniqByGo, h]
      rw [lhs, ih z hzs_pw hzs_le_z hx_le_zs hx_le_z]
      have hcond : (tickOf prev = tickOf x ∨ ∃ w ∈ z :: zs, tickOf w = tickOf x) ↔
          (tickOf z = tickOf x ∨ ∃ w ∈ zs, tickOf w = tickOf x) := by
        constructor
        · rintro (hc | ⟨w, hw, hwx⟩)
          · exact absurd hc hprev_ne_x
          · rcases List.mem_cons.mp hw with rfl | hw2
            · exact Or.inl hwx
            · exact Or.inr ⟨w, hw2, hwx⟩
        · rintro (hc | ⟨w, hw, hwx⟩)
          · exact Or.inr ⟨z, by simp, hc⟩
          · exact Or.inr ⟨w, by simp [hw], hwx⟩
      by_cases hc : tickOf prev = tickOf x ∨ ∃ w ∈ z :: zs, tickOf w = tickOf x
      · rw [if_pos hc, if_pos (hcond.mp hc)]
        simp [sortedUniqByGo, h]
      · rw [if_neg hc, if_neg (fun hc2 => hc (hcond.mpr hc2))]
        simp [sortedUniqByGo, h]

theorem sortedUniqBy_append {α : Type} (tickOf : α → Nat) (x : α) (m : List α)
    (hpw : m.Pairwise (fun a b => tickOf b ≤ tickOf a))
    (hge : ∀ z ∈ m, tickOf x ≤ tickOf z) :
    sortedUniqBy tickOf (m ++ [x]) =
      if ∃ z ∈ m, tickOf z = tickOf x
      then sortedUniqBy tickOf m
      else sortedUniqBy tickOf m ++ [x] := by
  cases m with
  | nil => simp [sortedUniqBy, sortedUniqByGo]
  | cons y ys =>
    have hys_pw : ys.Pairwise (fun a b => tickOf b ≤ tickOf a) := hpw.tail
    have hys_le_y : ∀ w ∈ ys, tickOf w ≤ tickOf y := fun w hw => List.rel_of_pairwise_cons hpw hw
    have hx_le_ys : ∀ w ∈ ys, tickOf x ≤ tickOf w := fun w hw => hge w (by simp [hw])
    have hx_le_y : tickOf x ≤ tickOf y := hge y (by simp)
    have lhs : sortedUniqBy tickOf ((y :: ys) ++ [x]) = y :: sortedUniqByGo tickOf y (ys ++ [x]) := by
      simp [sortedUniqBy]
    rw [lhs, sortedUniqByGo_append tickOf x ys y hys_pw hys_le_y hx_le_ys hx_le_y]
    have hcond : (tickOf y = tickOf x ∨ ∃ w ∈ ys, tickOf w = tickOf x) ↔
        (∃ w ∈ y :: ys, tickOf w = tickOf x) := by
      constructor
      · rintro (hc | ⟨w, hw, hwx⟩)
        · exact ⟨y, by simp, hc⟩
        · exact ⟨w, by simp [hw], hwx⟩
      · rintro ⟨w, hw, hwx⟩
        rcases List.mem_cons.mp hw with rfl | hw2
        · exact Or.inl hwx
        · exact Or.inr ⟨w, hw2, hwx⟩
    by_cases hc : ∃ w ∈ y :: ys, tickOf w = tickOf x
    · rw [if_pos (hcond.mpr hc), if_pos hc]
      simp [sortedUniqBy]
    · rw [if_neg (fun hc2 => hc (hcond.mp hc2)), if_neg hc]
      simp [sortedUniqBy]

theorem dedupKeepLastByTick_eq_lastPerTick {α : Type} (tickOf : α → Nat) :
    ∀ l : List α, l.Pairwise (fun a b => tickOf a ≤ tickOf b) →
      dedupKeepLastByTick tickOf l = lastPerTick tickOf l := by
  intro l
  induction l with
  | nil => intro _; rfl
  | cons x xs ih =>
    intro hpw
    have hsorted : (x :: xs).Sorted (fun a b => tickOf a ≤ tickOf b) := hpw
    have hxs_sorted : xs.Sorted (fun a b => tickOf a ≤ tickOf b) := hpw.tail
    have hsort_eq : sortByTick tickOf (x :: xs) = x :: xs :=
      List.Sorted.insertionSort_eq hsorted
    have hsort_eq_xs : sortByTick tickOf xs = xs :=
      List.Sorted.insertionSort_eq hxs_sorted
    have hrev_pw : xs.reverse.Pairwise (fun a b => tickOf b ≤ tickOf a) := by
      rw [List.pairwise_reverse]
      exact hpw.tail
    have hge : ∀ z ∈ xs.reverse, tickOf x ≤ tickOf z := by
      intro z hz
      exact List.rel_of_pairwise_cons hpw (List.mem_reverse.mp hz)
    have key : dedupKeepLastByTick tickOf (x :: xs) =
        (sortedUniqBy tickOf (xs.reverse ++ [x])).reverse := by
      unfold dedupKeepLastByTick
      rw [hsort_eq, List.reverse_cons]
    rw [key, sortedUniqBy_append tickOf x xs.reverse hrev_pw hge]
    have hex_iff : (∃ z ∈ xs.reverse, tickOf z = tickOf x) ↔
        (xs.any (fun y => tickOf y = tickOf x) = true) := by
      simp [List.any_eq_true]
    have hdedup_xs : (sortedUniqBy tickOf xs.reverse).reverse = dedupKeepLastByTick tickOf xs := by
      unfold dedupKeepLastByTick
      rw [hsort_eq_xs]
    by_cases hc : ∃ z ∈ xs.reverse, tickOf z = tickOf x
    · rw [if_pos hc]
      rw [hdedup_xs, ih hpw.tail]
      unfold lastPerTick
      rw [if_pos (hex_iff.mp hc)]
      cases xs <;> rfl
    · rw [if_neg hc]
      rw [List.reverse_append, List.reverse_singleton, List.singleton_append, hdedup_xs, ih hpw.tail]
      unfold lastPerTick
      rw [if_neg (fun h2 => hc (hex_iff.mpr h2))]
      cases xs <;> rfl

/-! ## Equivalence of the hasher phrase pruning with the windowed filter. -/

theorem pruneEmptyPhrases_eq_specPrune_general {α : Type} (tickOf lenOf : α → Nat) :
    ∀ (phrases : List α) (groups dropped : List (List Note)),
      phrases.Pairwise (fun p q => tickOf p ≤ tickOf q) →
      (dropped ++ groups).Pairwise (fun g h => headTick g ≤ headTick h) →
      (∀ g ∈ dropped ++ groups, g ≠ []) →
      (∀ g ∈ dropped ++ groups, ∀ n ∈ g, n.tick = headTick g) →
      (∀ g ∈ dropped, ∀ p ∈ phrases, headTick g < tickOf p) →
      pruneEmptyPhrases tickOf lenOf phrases groups =
        specPrune tickOf lenOf phrases (dropped ++ groups) := by
  intro phrases
  induction phrases with
  | nil =>
    intro groups dropped _ _ _ _ _
    simp [pruneEmptyPhrases, specPrune]
  | cons p ps ih =>
    intro groups dropped hph hgpw hne huni hdrop
    have hsplit : groups.takeWhile (fun g => decide (headTick g < tickOf p)) ++
        groups.dropWhile (fun g => decide (headTick g < tickOf p)) = groups :=
      List.takeWhile_append_dropWhile _ _
    have htk_lt : ∀ g ∈ groups.takeWhile (fun g => decide (headTick g < tickOf p)),
        headTick g < tickOf p := by
      intro g hg
      have := List.mem_takeWhile_imp hg
      simpa using this
    have hdrop_lt : ∀ g ∈ dropped, headTick g < tickOf p := fun g hg =>
      hdrop g hg p (by simp)
    -- the in-window test of a single group, under uniformity and nonemptiness
    have hgroup_any : ∀ g ∈ dropped ++ groups,
        (g.any (fun n => decide (tickOf p ≤ n.tick) &&
          decide (n.tick < tickOf p + max (lenOf p) 1)) = true) ↔
        (tickOf p ≤ headTick g ∧ headTick g < tickOf p + max (lenOf p) 1) := by
      intro g hg
      constructor
      · intro h
        rcases List.any_eq_true.mp h with ⟨n, hn, hcond⟩
        have hnt := huni g hg n hn
        simp only [Bool.and_eq_true, decide_eq_true_eq] at hcond
        exact ⟨hnt ▸ hcond.1, hnt ▸ hcond.2⟩
      · intro h
        rcases List.exists_mem_of_ne_nil g (hne g hg) with ⟨n, hn⟩
        refine List.any_eq_true.mpr ⟨n, hn, ?_⟩
        have hnt := huni g hg n hn
        simp only [Bool.and_eq_true, decide_eq_true_eq]
        exact ⟨hnt ▸ h.1, hnt ▸ h.2⟩
    -- groups with head below the phrase start never pass the window test
    have hbelow_false : ∀ g ∈ dropped ++ groups, headTick g < tickOf p →
        (g.any (fun n => decide (tickOf p ≤ n.tick) &&
          decide (n.tick < tickOf p + max (lenOf p) 1)) = false) := by
      intro g hg hlt
      by_contra h
      have := (hgroup_any g hg).mp (eq_true_of_ne_false h)
      omega
    have hmax : (if lenOf p = 0 then 1 else lenOf p) = max (lenOf p) 1 := by
      by_cases h : lenOf p = 0
      · simp [h]
      · simp [h]; omega
    -- the source keep test agrees with the any-test over the full group list
    have hkeep_eq : keepPhrase tickOf lenOf p
        (groups.dropWhile (fun g => decide (headTick g < tickOf p))) =
        (dropped ++ groups).any (fun g => g.any (fun n =>
          decide (tickOf p ≤ n.tick) && decide (n.tick < tickOf p + max (lenOf p) 1))) := by
      rcases hrest2 : groups.dropWhile (fun g => decide (headTick g < tickOf p)) with _ | ⟨g, gs2⟩
      · -- no group reaches the phrase start: every group is below it
        have hall : ∀ g ∈ dropped ++ groups, headTick g < tickOf p := by
          intro g hg
          rcases List.mem_append.mp hg with hgd | hgg
          · exact hdrop_lt g hgd
          · have hgg2 : g ∈ groups.takeWhile (fun g => decide (headTick g < tickOf p)) ++
                groups.dropWhile (fun g => decide (headTick g < tickOf p)) := by
              rw [hsplit]; exact hgg
            rcases List.mem_append.mp hgg2 with hgt | hgr
            · exact htk_lt g hgt
            · rw [hrest2] at hgr; cases hgr
        rw [keepPhrase]
        symm
        rw [List.any_eq_false]
        intro g hg
        simp only [Bool.not_eq_true]
        exact hbelow_false g hg (hall g hg)
      · -- the first surviving group decides the test
        have hg_mem_groups : g ∈ groups := by
          have hmem : g ∈ groups.takeWhile (fun g => decide (headTick g < tickOf p)) ++
              groups.dropWhile (fun g => decide (headTick g < tickOf p)) := by
            rw [hrest2]
            exact List.mem_append.mpr (Or.inr (by simp))
          rw [hsplit] at hmem
          exact hmem
        have hg_mem : g ∈ dropped ++ groups := List.mem_append.mpr (Or.inr hg_mem_groups)
        have hg_ge : tickOf p ≤ headTick g := by
          have hhead := List.head?_dropWhile_not (fun g => decide (headTick g < tickOf p)) groups
          rw [hrest2] at hhead
          simp at hhead
          exact hhead
        -- groups at or after g have head ticks at least headTick g
        have hrest_pw : (g :: gs2).Pairwise (fun a b => headTick a ≤ headTick b) := by
          have hsub : (g :: gs2).Sublist groups := by
            rw [← hrest2]; exact List.dropWhile_sublist _
          exact List.Pairwise.sublist hsub (List.pairwise_append.mp hgpw).2.1
        rw [keepPhrase, hmax]
        by_cases hwin : headTick g < tickOf p + max (lenOf p) 1
        · rw [decide_eq_true hwin]
          symm
          rw [List.any_eq_true]
          exact ⟨g, hg_mem, (hgroup_any g hg_mem).mpr ⟨hg_ge, hwin⟩⟩
        · rw [decide_eq_false hwin]
          symm
          rw [List.any_eq_false]
          intro h hh
          simp only [Bool.not_eq_true]
          rcases List.mem_append.mp hh with hhd | hhg
          · exact hbelow_false h hh (hdrop_lt h hhd)
          · have hhg2 : h ∈ groups.takeWhile (fun g => decide (headTick g < tickOf p)) ++
                groups.dropWhile (fun g => decide (headTick g < tickOf p)) := by
              rw [hsplit]; exact hhg
            rcases List.mem_append.mp hhg2 with hht | hhr
            · exact hbelow_false h hh (htk_lt h hht)
            · -- h is g or after g: its head tick is at least headTick g, outside the window
              have hge : headTick g ≤ headTick h := by
                rw [hrest2] at hhr
                rcases List.mem_cons.mp hhr with rfl | hh2
                · exact le_refl _
                · exact List.rel_of_pairwise_cons hrest_pw hh2
              by_contra hcon
              have := (hgroup_any h hh).mp (eq_true_of_ne_false hcon)
              omega
    -- apply the induction hypothesis to the tail with the enlarged dropped prefix
    have hperm : (dropped ++ groups.takeWhile (fun g => decide (headTick g < tickOf p))) ++
        groups.dropWhile (fun g => decide (headTick g < tickOf p)) = dropped ++ groups := by
      rw [List.append_assoc, hsplit]
    have ihp : pruneEmptyPhrases tickOf lenOf ps
        (groups.dropWhile (fun g => decide (headTick g < tickOf p))) =
        specPrune tickOf lenOf ps (dropped ++ groups) := by
      rw [← hperm]
      apply ih
      · exact hph.tail
      · rw [hperm]; exact hgpw
      · intro g hg; rw [hperm] at hg; exact hne g hg
      · intro g hg; rw [hperm] at hg; exact huni g hg
      · intro g hg q hq
        have hpq : tickOf p ≤ tickOf q := List.rel_of_pairwise_cons hph hq
        rcases List.mem_append.mp hg with hgd | hgt
        · exact lt_of_lt_of_le (hdrop_lt g hgd) hpq
        · exact lt_of_lt_of_le (htk_lt g hgt) hpq
    -- put the pieces together
    have hunfold : pruneEmptyPhrases tickOf lenOf (p :: ps) groups =
        (if keepPhrase tickOf lenOf p
            (groups.dropWhile (fun g => decide (headTick g < tickOf p))) then
          p :: pruneEmptyPhrases tickOf lenOf ps
            (groups.dropWhile (fun g => decide (headTick g < tickOf p)))
        else pruneEmptyPhrases tickOf lenOf ps
            (groups.dropWhile (fun g => decide (headTick g < tickOf p)))) := rfl
    rw [hunfold, hkeep_eq]
    unfold specPrune
    rw [List.filter_cons]
    by_cases hc : (dropped ++ groups).any (fun g => g.any (fun n =>
        decide (tickOf p ≤ n.tick) && decide (n.tick < tickOf p + max (lenOf p) 1))) = true
    · rw [hc]
      simp only [if_true]
      rw [ihp]
      rfl
    · rw [Bool.eq_false_iff.mpr hc]
      simp only [Bool.false_eq_true, if_false]
      rw [ihp]
      rfl

theorem pruneEmptyPhrases_eq_specPrune {α : Type} (tickOf lenOf : α → Nat)
    (phrases : List α) (groups : List (List Note))
    (hph : phrases.Pairwise (fun p q => tickOf p ≤ tickOf q))
    (hgpw : groups.Pairwise (fun g h => headTick g ≤ headTick h))
    (hne : ∀ g ∈ groups, g ≠ [])
    (huni : ∀ g ∈ groups, ∀ n ∈ g, n.tick = headTick g) :
    pruneEmptyPhrases tickOf lenOf phrases groups = specPrune tickOf lenOf phrases groups := by
  have h := pruneEmptyPhrases_eq_specPrune_general tickOf lenOf phrases groups [] hph
    (by simpa using hgpw) (by simpa using hne) (by simpa using huni) (by simp)
  simpa using h

/-! ## Claim C1: the BTRACK layout. -/

/-- A concrete track whose drum-freestyle phrase contains no notes: the
    freestyle phrase covers ticks [0, 10) while the only note group starts at
    tick 100. -/
def c1CounterTrack : TrackData :=
  { instrument := .drums
    difficulty := .expert
    starPowerSections := []
    soloSections := []
    flexLanes := []
    drumFreestyleSections := [⟨0, 10, false⟩]
    noteEventGroups := [[⟨100, 0, 14, 16⟩]] }

/-- A chart containing only c1CounterTrack. -/
def c1CounterChart : ParsedChart :=
  { resolution := 192
    tempos := []
    timeSignatures := []
    trackData := [c1CounterTrack] }

/-- C1 counterexample: the serialized buffer is NOT the layout asserted by
    the claim, because the code serializes the drum-freestyle table without
    pruning it against the notes: a freestyle phrase at [0, 10) with zero
    notes inside is still serialized (the claim requires it excluded). -/
theorem calculateTrackHash_freestyle_not_pruned :
    c1CounterTrack ∈ c1CounterChart.trackData ∧
    calculateTrackHash c1CounterChart .drums .expert =
      .ok (serializeFoundTrack c1CounterChart c1CounterTrack) ∧
    serializeFoundTrack c1CounterChart c1CounterTrack ≠
      claimedTrackBytes c1CounterChart c1CounterTrack := by
  refine ⟨by decide, rfl, by decide⟩

/-- C1 (corrected): whenever the requested track exists, and the tempo map,
    time-signature list, phrase tables and note groups are sorted by tick
    with non-empty tick-uniform note groups (as the parser produces them),
    the serialized BTRACK buffer is exactly: four big-endian magic bytes
    0x43 0x48 0x4E 0x46, little-endian version 20240320 and resolution, then
    the length-prefixed sections tempos (tick:i64, bpm:f64), time signatures
    (tick:i64, num:u32, denom:u32), star power (tick:i64, len:i64), solos,
    flex lanes (tick:i64, len:i64, isDouble:u8), drum freestyle (tick:i64,
    len:i64, isCoda:u8), notes (tick:i64, len:i64, type:u32, flags:u32) in
    that order, where tempos and time signatures keep only the last marker
    per tick, the star-power, solo and flex-lane tables are pruned of
    phrases with zero notes strictly inside [tick, tick + max(length,1)),
    and the drum-freestyle table is serialized WITHOUT pruning. -/
theorem calculateTrackHash_layout
    (parsedChart : ParsedChart) (instrument : Instrument) (difficulty : Difficulty) (t : TrackData)
    (hfind : parsedChart.trackData.find? (fun t =>
      decide (t.instrument = instrument) && decide (t.difficulty = difficulty)) = some t)
    (htempos : parsedChart.tempos.Pairwise (fun a b => a.tick ≤ b.tick))
    (hts : parsedChart.timeSignatures.Pairwise (fun a b => a.tick ≤ b.tick))
    (hsp : t.starPowerSections.Pairwise (fun a b => a.tick ≤ b.tick))
    (hsolo : t.soloSections.Pairwise (fun a b => a.tick ≤ b.tick))
    (hflex : t.flexLanes.Pairwise (fun a b => a.tick ≤ b.tick))
    (hgroups : t.noteEventGroups.Pairwise (fun g h => headTick g ≤ headTick h))
    (hne : ∀ g ∈ t.noteEventGroups, g ≠ [])
    (huni : ∀ g ∈ t.noteEventGroups, ∀ n ∈ g, n.tick = headTick g) :
    calculateTrackHash parsedChart instrument difficulty =
      .ok (amendedTrackBytes parsedChart t) := by
  unfold calculateTrackHash
  rw [hfind]
  show Except.ok (serializeFoundTrack parsedChart t) = Except.ok (amendedTrackBytes parsedChart t)
  unfold serializeFoundTrack amendedTrackBytes
  rw [dedupKeepLastByTick_eq_lastPerTick Tempo.tick _ htempos,
    dedupKeepLastByTick_eq_lastPerTick TimeSignature.tick _ hts,
    pruneEmptyPhrases_eq_specPrune Phrase.tick Phrase.length _ _ hsp hgroups hne huni,
    pruneEmptyPhrases_eq_specPrune Phrase.tick Phrase.length _ _ hsolo hgroups hne huni,
    pruneEmptyPhrases_eq_specPrune FlexLane.tick FlexLane.length _ _ hflex hgroups hne huni]

/-- A small fully concrete track for the layout witness: a star-power phrase
    that prunes away (ticks [200, 210) contain no note), duplicate tempo
    markers at tick 0, and an empty-window freestyle phrase that stays. -/
def c1WitnessTrack : TrackData :=
  { instrument := .guitar
    difficulty := .expert
    starPowerSections := [⟨0, 50⟩, ⟨200, 10⟩]
    soloSections := []
    flexLanes := [⟨0, 20, true⟩]
    drumFreestyleSections := [⟨500, 10, false⟩]
    noteEventGroups := [[⟨0, 0, 2, 1⟩], [⟨100, 0, 3, 1⟩]] }

/-- A chart containing only c1WitnessTrack plus duplicated tempo markers. -/
def c1WitnessChart : ParsedChart :=
  { resolution := 192
    tempos := [⟨0, 100⟩, ⟨0, 200⟩, ⟨10, 300⟩]
    timeSignatures := [⟨0, 4, 4⟩]
    trackData := [c1WitnessTrack] }

/-- Witness for calculateTrackHash_layout at a concrete chart. -/
theorem calculateTrackHash_layout_witness :
    (c1WitnessChart.trackData.find? (fun t =>
      decide (t.instrument = Instrument.guitar) && decide (t.difficulty = Difficulty.expert)) =
        some c1WitnessTrack) ∧
    calculateTrackHash c1WitnessChart .guitar .expert =
      .ok (amendedTrackBytes c1WitnessChart c1WitnessTrack) :=
  ⟨by decide,
    calculateTrackHash_layout c1WitnessChart .guitar .expert c1WitnessTrack
      (by decide) (by decide) (by decide) (by decide) (by decide) (by decide)
      (by decide) (by decide) (by decide)⟩

/-! ## fixLegacyGhStarPower (src/chart/midi-parser.ts).
    The source collects the star-power and solo events of one difficulty and,
    when the legacy heuristic fires, retypes every solo event to starPower
    and every star-power event to rejectedStarPower, in place.  Retyping the
    collected references is the same as mapping over the event list.  The
    events of the .mid stream also carry velocity and channel, which this
    function never reads. -/

/-- The per-event retyping performed when the legacy heuristic fires. -/
def swapSoloAndSp (e : TrackEventR) : TrackEventR :=
  if e.type = eventTypes.soloSection then { e with type := eventTypes.starPower }
  else if e.type = eventTypes.starPower then { e with type := eventTypes.rejectedStarPower }
  else e

/-- The body of fixLegacyGhStarPower for one difficulty list (the outer
    guard on instrument type and multiplier_note is applied by the caller
    below). -/
def fixLegacyGhStarPowerOne (multiplier_note : Int) (evs : List TrackEventR) : List TrackEventR :=
  let starPowerSections := evs.filter (fun e => decide (e.type = eventTypes.starPower))
  let soloSections := evs.filter (fun e => decide (e.type = eventTypes.soloSection))
  if multiplier_note = 103 ∨ (starPowerSections.length = 0 ∧ 1 < soloSections.length) then
    evs.map swapSoloAndSp
  else evs

/-- The per-difficulty event streams of one .mid instrument track. -/
structure DifficultyLists where
  expert : List TrackEventR
  hard : List TrackEventR
  medium : List TrackEventR
  easy : List TrackEventR
deriving DecidableEq, Repr

/-- Source function fixLegacyGhStarPower. -/
def fixLegacyGhStarPower (events : DifficultyLists) (instrumentType : InstrumentType)
    (multiplier_note : Int) : DifficultyLists :=
  if (instrumentType = .fiveFret ∨ instrumentType = .sixFret) ∧ multiplier_note ≠ 116 then
    { expert := fixLegacyGhStarPowerOne multiplier_note events.expert
      hard := fixLegacyGhStarPowerOne multiplier_note events.hard
      medium := fixLegacyGhStarPowerOne multiplier_note events.medium
      easy := fixLegacyGhStarPowerOne multiplier_note events.easy }
  else events

/-- The condition under which the source actually swaps the events of one
    difficulty list: 5-fret or 6-fret instrument, multiplier_note different
    from 116, and (multiplier_note = 103, or the list has zero star-power
    events and more than one solo event). -/
def legacySwapCond (instrumentType : InstrumentType) (multiplier_note : Int)
    (evs : List TrackEventR) : Prop :=
  (instrumentType = .fiveFret ∨ instrumentType = .sixFret) ∧ multiplier_note ≠ 116 ∧
    (multiplier_note = 103 ∨
      (evs.countP (fun e => decide (e.type = eventTypes.starPower)) = 0 ∧
        1 < evs.countP (fun e => decide (e.type = eventTypes.soloSection))))

instance (instrumentType : InstrumentType) (multiplier_note : Int) (evs : List TrackEventR) :
    Decidable (legacySwapCond instrumentType multiplier_note evs) := by
  unfold legacySwapCond
  infer_instance

/-! ## Claim C4: when the legacy Star-Power swap fires. -/

/-- C4 counterexample: with multiplier_note = 50 (neither 103 nor unset nor
    116) and an expert list with zero star-power events and two solo events,
    the code performs the swap, while the claim says the swap happens only
    for multiplier_note = 103 or multiplier_note = 0. -/
theorem fixLegacyGhStarPower_fires_on_other_values :
    (fixLegacyGhStarPower
      ⟨[⟨0, 10, eventTypes.soloSection⟩, ⟨20, 10, eventTypes.soloSection⟩], [], [], []⟩
      .fiveFret 50).expert =
      [⟨0, 10, eventTypes.starPower⟩, ⟨20, 10, eventTypes.starPower⟩] ∧
    ¬((50 : Int) = 103 ∨ ((50 : Int) = 0 ∧
      ([(⟨0, 10, eventTypes.soloSection⟩ : TrackEventR), ⟨20, 10, eventTypes.soloSection⟩].countP
        (fun e => decide (e.type = eventTypes.starPower)) = 0 ∧
      1 < [(⟨0, 10, eventTypes.soloSection⟩ : TrackEventR), ⟨20, 10, eventTypes.soloSection⟩].countP
        (fun e => decide (e.type = eventTypes.soloSection))))) := by
  constructor
  · rfl
  · decide

/-- C4 (corrected): for each difficulty, the legacy swap (solos retyped to
    Star Power, star power retyped to rejectedStarPower) is performed if and
    only if the track is 5-fret or 6-fret, multiplier_note is not 116, and
    either multiplier_note = 103 or that difficulty has zero Star-Power
    events and more than one solo event; the swap condition does not require
    multiplier_note to be unset (0) — any value other than 116 and 103
    triggers it via the zero-SP/multi-solo branch. -/
theorem fixLegacyGhStarPower_swap_iff
    (events : DifficultyLists) (instrumentType : InstrumentType) (multiplier_note : Int) :
    (fixLegacyGhStarPower events instrumentType multiplier_note).expert =
      (if legacySwapCond instrumentType multiplier_note events.expert
        then events.expert.map swapSoloAndSp else events.expert) ∧
    (fixLegacyGhStarPower events instrumentType multiplier_note).hard =
      (if legacySwapCond instrumentType multiplier_note events.hard
        then events.hard.map swapSoloAndSp else events.hard) ∧
    (fixLegacyGhStarPower events instrumentType multiplier_note).medium =
      (if legacySwapCond instrumentType multiplier_note events.medium
        then events.medium.map swapSoloAndSp else events.medium) ∧
    (fixLegacyGhStarPower events instrumentType multiplier_note).easy =
      (if legacySwapCond instrumentType multiplier_note events.easy
        then events.easy.map swapSoloAndSp else events.easy) := by
  have hone : ∀ evs : List TrackEventR,
      ((instrumentType = .fiveFret ∨ instrumentType = .sixFret) ∧ multiplier_note ≠ 116) →
      fixLegacyGhStarPowerOne multiplier_note evs =
        (if legacySwapCond instrumentType multiplier_note evs
          then evs.map swapSoloAndSp else evs) := by
    intro evs hguard
    unfold fixLegacyGhStarPowerOne legacySwapCond
    simp only [← List.countP_eq_length_filter]
    by_cases hc : multiplier_note = 103 ∨
        (evs.countP (fun e => decide (e.type = eventTypes.starPower)) = 0 ∧
          1 < evs.countP (fun e => decide (e.type = eventTypes.soloSection)))
    · rw [if_pos hc, if_pos ⟨hguard.1, hguard.2, hc⟩]
    · rw [if_neg hc, if_neg (fun h => hc h.2.2)]
  by_cases hguard : (instrumentType = .fiveFret ∨ instrumentType = .sixFret) ∧ multiplier_note ≠ 116
  · unfold fixLegacyGhStarPower
    rw [if_pos hguard]
    exact ⟨hone events.expert hguard, hone events.hard hguard,
      hone events.medium hguard, hone events.easy hguard⟩
  · unfold fixLegacyGhStarPower
    rw [if_neg hguard]
    have hnot : ∀ evs : List TrackEventR, ¬legacySwapCond instrumentType multiplier_note evs := by
      intro evs h
      exact hguard ⟨h.1, h.2.1⟩
    rw [if_neg (hnot events.expert), if_neg (hnot events.hard),
      if_neg (hnot events.medium), if_neg (hnot events.easy)]
    exact ⟨rfl, rfl, rfl, rfl⟩

/-! ## The forceOpen step of resolveFretModifiers (src/chart/notes-parser.ts).
    When a tick group contains a forceOpen marker, the source takes the
    longest playable (fret) note with lodash maxBy (which keeps the first of
    equals), removes every fret note and the forceOpen markers from the
    group, retypes the longest note to open, and pushes it back. -/

/-- Source function isFretNote (the playable note event types). -/
def isFretNote (t : Nat) : Bool :=
  decide (t = eventTypes.openNote) || decide (t = eventTypes.green) ||
  decide (t = eventTypes.red) || decide (t = eventTypes.yellow) ||
  decide (t = eventTypes.blue) || decide (t = eventTypes.orange) ||
  decide (t = eventTypes.black3) || decide (t = eventTypes.black2) ||
  decide (t = eventTypes.black1) || decide (t = eventTypes.white3) ||
  decide (t = eventTypes.white2) || decide (t = eventTypes.white1)

/-- lodash maxBy on length: scan keeping the current element only when the
    next is strictly longer, so the first of the longest elements wins. -/
def maxByLengthGo (best : TrackEventR) : List TrackEventR → TrackEventR
  | [] => best
  | y :: ys => if best.length < y.length then maxByLengthGo y ys else maxByLengthGo best ys

/-- lodash maxBy on length (undefined on the empty list). -/
def maxByLength : List TrackEventR → Option TrackEventR
  | [] => none
  | x :: xs => some (maxByLengthGo x xs)

/-- The forceOpen block of resolveFretModifiers applied to one tick group.
    The `none` branch is unreachable when the group has a playable note (the
    source asserts this with a non-null assertion). -/
def applyForceOpen (events : List TrackEventR) : List TrackEventR :=
  if events.any (fun n => decide (n.type = eventTypes.forceOpen)) then
    match maxByLength (events.filter (fun e => isFretNote e.type)) with
    | some longestEvent =>
      events.filter (fun e => !(isFretNote e.type || decide (e.type = eventTypes.forceOpen)))
        ++ [{ longestEvent with type := eventTypes.openNote }]
    | none => events
  else events

theorem maxByLengthGo_spec (best : TrackEventR) :
    ∀ l : List TrackEventR,
      (maxByLengthGo best l = best ∨ maxByLengthGo best l ∈ l) ∧
      best.length ≤ (maxByLengthGo best l).length ∧
      ∀ x ∈ l, x.length ≤ (maxByLengthGo best l).length := by
  intro l
  induction l generalizing best with
  | nil => exact ⟨Or.inl rfl, le_refl _, by simp⟩
  | cons y ys ih =>
    by_cases h : best.length < y.length
    · have hgo : maxByLengthGo best (y :: ys) = maxByLengthGo y ys := by
        show (if best.length < y.length then maxByLengthGo y ys else maxByLengthGo best ys) = _
        rw [if_pos h]
      rcases ih y with ⟨hmem, hle, hall⟩
      refine ⟨?_, ?_, ?_⟩
      · rw [hgo]
        rcases hmem with heq | hin
        · exact Or.inr (by rw [heq]; exact List.mem_cons_self y ys)
        · exact Or.inr (List.mem_cons_of_mem y hin)
      · rw [hgo]; exact le_trans (le_of_lt h) hle
      · intro x hx
        rw [hgo]
        rcases List.mem_cons.mp hx with rfl | hx2
        · exact hle
        · exact hall x hx2
    · have hgo : maxByLengthGo best (y :: ys) = maxByLengthGo best ys := by
        show (if best.length < y.length then maxByLengthGo y ys else maxByLengthGo best ys) = _
        rw [if_neg h]
      rcases ih best with ⟨hmem, hle, hall⟩
      refine ⟨?_, ?_, ?_⟩
      · rw [hgo]
        rcases hmem with heq | hin
        · exact Or.inl heq
        · exact Or.inr (List.mem_cons_of_mem y hin)
      · rw [hgo]; exact hle
      · intro x hx
        rw [hgo]
        rcases List.mem_cons.mp hx with rfl | hx2
        · exact le_trans (Nat.le_of_not_lt h) hle
        · exact hall x hx2

theorem maxByLength_spec (l : List TrackEventR) (hne : l ≠ []) :
    ∃ m, maxByLength l = some m ∧ m ∈ l ∧ ∀ x ∈ l, x.length ≤ m.length := by
  cases l with
  | nil => exact absurd rfl hne
  | cons x xs =>
    rcases maxByLengthGo_spec x xs with ⟨hmem, hle, hall⟩
    refine ⟨maxByLengthGo x xs, rfl, ?_, ?_⟩
    · rcases hmem with heq | hin
      · rw [heq]; exact List.mem_cons_self x xs
      · exact List.mem_cons_of_mem x hin
    · intro z hz
      rcases List.mem_cons.mp hz with rfl | hz2
      · exact hle
      · exact hall z hz2

/-! ## Claim C8: forceOpen promotes the longest playable note. -/

/-- C8 (confirmed): in a tick group containing a forceOpen marker and at
    least one playable note, the playable note with the longest length
    (first of equals) is promoted to an open note keeping its length, and
    all other playable notes and the forceOpen markers are removed, so the
    playable notes of the resulting group are exactly the single promoted
    open note. -/
theorem applyForceOpen_promotes_longest (events : List TrackEventR)
    (hforce : events.any (fun n => decide (n.type = eventTypes.forceOpen)) = true)
    (hfret : ∃ e ∈ events, isFretNote e.type = true) :
    ∃ l ∈ events, isFretNote l.type = true ∧
      (∀ e ∈ events, isFretNote e.type = true → e.length ≤ l.length) ∧
      applyForceOpen events =
        events.filter (fun e => !(isFretNote e.type || decide (e.type = eventTypes.forceOpen)))
          ++ [{ l with type := eventTypes.openNote }] ∧
      (applyForceOpen events).filter (fun e => isFretNote e.type) =
        [{ l with type := eventTypes.openNote }] := by
  have hfilter_ne : events.filter (fun e => isFretNote e.type) ≠ [] := by
    rcases hfret with ⟨e, he, hfe⟩
    intro hnil
    have : e ∈ events.filter (fun e => isFretNote e.type) := List.mem_filter.mpr ⟨he, hfe⟩
    rw [hnil] at this
    cases this
  rcases maxByLength_spec _ hfilter_ne with ⟨m, hm_eq, hm_mem, hm_max⟩
  have hm_in_events : m ∈ events := (List.mem_filter.mp hm_mem).1
  have hm_fret : isFretNote m.type = true := (List.mem_filter.mp hm_mem).2
  have hresult : applyForceOpen events =
      events.filter (fun e => !(isFretNote e.type || decide (e.type = eventTypes.forceOpen)))
        ++ [{ m with type := eventTypes.openNote }] := by
    unfold applyForceOpen
    rw [if_pos hforce, hm_eq]
  refine ⟨m, hm_in_events, hm_fret, ?_, hresult, ?_⟩
  · intro e he hfe
    exact hm_max e (List.mem_filter.mpr ⟨he, hfe⟩)
  · rw [hresult, List.filter_append]
    have h1 : (events.filter (fun e => !(isFretNote e.type ||
        decide (e.type = eventTypes.forceOpen)))).filter (fun e => isFretNote e.type) = [] := by
      rw [List.filter_filter, List.filter_eq_nil_iff]
      intro a _
      simp only [Bool.and_eq_true, Bool.not_eq_true', Bool.or_eq_false_iff]
      rintro ⟨hfa, ⟨hna, _⟩⟩
      rw [hfa] at hna
      cases hna
    rw [h1, List.nil_append]
    have hopen : isFretNote eventTypes.openNote = true := by decide
    simp [List.filter_cons, hopen]

/-- Witness for applyForceOpen_promotes_longest: a group with a green note
    of length 10, a red note of length 40 and a forceOpen marker yields the
    single open note of length 40. -/
theorem applyForceOpen_promotes_longest_witness :
    (([⟨0, 10, eventTypes.green⟩, ⟨0, 40, eventTypes.red⟩, ⟨0, 0, eventTypes.forceOpen⟩] :
        List TrackEventR).any (fun n => decide (n.type = eventTypes.forceOpen)) = true) ∧
    (∃ e ∈ ([⟨0, 10, eventTypes.green⟩, ⟨0, 40, eventTypes.red⟩, ⟨0, 0, eventTypes.forceOpen⟩] :
        List TrackEventR), isFretNote e.type = true) ∧
    (∃ l ∈ ([⟨0, 10, eventTypes.green⟩, ⟨0, 40, eventTypes.red⟩, ⟨0, 0, eventTypes.forceOpen⟩] :
        List TrackEventR), isFretNote l.type = true ∧
      (∀ e ∈ ([⟨0, 10, eventTypes.green⟩, ⟨0, 40, eventTypes.red⟩, ⟨0, 0, eventTypes.forceOpen⟩] :
          List TrackEventR), isFretNote e.type = true → e.length ≤ l.length) ∧
      applyForceOpen [⟨0, 10, eventTypes.green⟩, ⟨0, 40, eventTypes.red⟩, ⟨0, 0, eventTypes.forceOpen⟩] =
        ([⟨0, 10, eventTypes.green⟩, ⟨0, 40, eventTypes.red⟩, ⟨0, 0, eventTypes.forceOpen⟩] :
          List TrackEventR).filter (fun e => !(isFretNote e.type || decide (e.type = eventTypes.forceOpen)))
          ++ [{ l with type := eventTypes.openNote }] ∧
      (applyForceOpen [⟨0, 10, eventTypes.green⟩, ⟨0, 40, eventTypes.red⟩, ⟨0, 0, eventTypes.forceOpen⟩]).filter
          (fun e => isFretNote e.type) = [{ l with type := eventTypes.openNote }]) :=
  ⟨by decide, ⟨⟨0, 10, eventTypes.green⟩, by decide, by decide⟩,
    applyForceOpen_promotes_longest _ (by decide) ⟨⟨0, 10, eventTypes.green⟩, by decide, by decide⟩⟩

/-! ## mergeSoloEvents (src/chart/chart-parser.ts).
    The source iterates over the (already tick-ordered) events, pushing solo
    starts on a stack; each soloend pops the most recent start and mutates
    that start in place into a soloSection of length end.tick - start.tick + 1;
    finally all remaining start/end events are removed.  The in-place
    mutation is modelled with an explicit array state (arr) addressed by the
    running index j; the loop reads each original event once, so iterating
    over the original list is faithful. -/

/-- Default event used to totalize list indexing (never read under the
    invariants of the proofs below). -/
def dfltEv : TrackEventR := ⟨0, 0, 0⟩

/-- The loop of mergeSoloEvents, followed by the final removal pass. -/
def mergeSoloLoop (arr : List TrackEventR) (stack : List Nat) (j : Nat) :
    List TrackEventR → List TrackEventR
  | [] => arr.filter (fun e =>
      !(decide (e.type = eventTypes.soloSectionStart) ||
        decide (e.type = eventTypes.soloSectionEnd)))
  | ev :: rest =>
    if ev.type = eventTypes.soloSectionStart then
      mergeSoloLoop arr (j :: stack) (j + 1) rest
    else if ev.type = eventTypes.soloSectionEnd then
      match stack with
      | [] => mergeSoloLoop arr stack (j + 1) rest
      | j0 :: stk =>
        let startEv := arr.getD j0 ev
        mergeSoloLoop
          (arr.set j0 { startEv with
            type := eventTypes.soloSection,
            length := ev.tick - startEv.tick + 1 }) stk (j + 1) rest
    else mergeSoloLoop arr stack (j + 1) rest

/-- Source function mergeSoloEvents. -/
def mergeSoloEvents (events : List TrackEventR) : List TrackEventR :=
  mergeSoloLoop events [] 0 events

/-- An output event that arose from merging a matched solo/soloend pair:
    it carries the start tick and the length endTick - startTick + 1. -/
def MergedSolo (events : List TrackEventR) (e : TrackEventR) : Prop :=
  e.type = eventTypes.soloSection ∧
    ∃ s ∈ events, s.type = eventTypes.soloSectionStart ∧ s.tick = e.tick ∧
      ∃ en ∈ events, en.type = eventTypes.soloSectionEnd ∧ s.tick ≤ en.tick ∧
        e.length = en.tick - s.tick + 1

theorem getD_eq_of_lt {α : Type} (l : List α) (d1 d2 : α) (i : Nat) (h : i < l.length) :
    l.getD i d1 = l.getD i d2 := by
  simp [List.getD, List.get?_eq_getElem?, List.getElem?_eq_getElem h]

theorem getD_mem_of_lt {α : Type} (l : List α) (d : α) (i : Nat) (h : i < l.length) :
    l.getD i d ∈ l := by
  rw [List.getD, List.get?_eq_getElem?, List.getElem?_eq_getElem h]
  exact List.getElem_mem h

theorem getD_set_ne {α : Type} (l : List α) (d a : α) (m i : Nat) (h : m ≠ i) :
    (l.set m a).getD i d = l.getD i d := by
  rw [List.getD, List.getD, List.get?_eq_getElem?, List.get?_eq_getElem?,
    List.getElem?_set_ne h]

theorem mergeSoloLoop_spec (events : List TrackEventR)
    (hsorted : events.Pairwise (fun a b => a.tick ≤ b.tick))
    (hnosolo : ∀ ev ∈ events, ev.type ≠ eventTypes.soloSection) :
    ∀ (rest arr : List TrackEventR) (stack : List Nat) (j : Nat),
      arr.length = events.length →
      events.drop j = rest →
      (∀ i, j ≤ i → arr.getD i dfltEv = events.getD i dfltEv) →
      stack.Pairwise (fun a b => b < a) →
      (∀ i ∈ stack, i < j ∧ i < arr.length ∧ arr.getD i dfltEv ∈ events ∧
        (arr.getD i dfltEv).type = eventTypes.soloSectionStart ∧
        ∀ ev ∈ rest, (arr.getD i dfltEv).tick ≤ ev.tick) →
      (∀ e ∈ arr, e ∈ events ∨ MergedSolo events e) →
      ∀ e ∈ mergeSoloLoop arr stack j rest,
        e.type ≠ eventTypes.soloSectionStart ∧ e.type ≠ eventTypes.soloSectionEnd ∧
        (e.type = eventTypes.soloSection → MergedSolo events e) := by
  intro rest
  induction rest with
  | nil =>
    intro arr stack j _ _ _ _ _ hmerged e he
    have he2 := List.mem_filter.mp he
    have hpred := he2.2
    simp only [Bool.not_eq_true', Bool.or_eq_false_iff, decide_eq_false_iff_not] at hpred
    refine ⟨hpred.1, hpred.2, fun htype => ?_⟩
    rcases hmerged e he2.1 with hin | hm
    · exact absurd htype (hnosolo e hin)
    · exact hm
  | cons ev rest2 ih =>
    intro arr stack j hlen hdrop hhigh hspw hstack hmerged
    have hjlt : j < events.length := by
      by_contra hj
      rw [List.drop_eq_nil_of_le (Nat.le_of_not_lt hj)] at hdrop
      cases hdrop
    have hdrop_cons : events.drop j = events[j] :: events.drop (j + 1) :=
      List.drop_eq_getElem_cons hjlt
    have hev : events[j] = ev := by
      rw [hdrop_cons] at hdrop
      exact (List.cons.injEq _ _ _ _ ▸ hdrop).1
    have hdrop2 : events.drop (j + 1) = rest2 := by
      rw [hdrop_cons] at hdrop
      exact (List.cons.injEq _ _ _ _ ▸ hdrop).2
    have hev_getD : events.getD j dfltEv = ev := by
      simp [List.getD, List.get?_eq_getElem?, List.getElem?_eq_getElem hjlt, hev]
    have hev_mem : ev ∈ events := hev ▸ List.getElem_mem hjlt
    have hdrop_pw : (ev :: rest2).Pairwise (fun a b => a.tick ≤ b.tick) := by
      rw [← hdrop]
      exact List.Pairwise.sublist (List.drop_sublist j events) hsorted
    by_cases h1 : ev.type = eventTypes.soloSectionStart
    · have hstep : mergeSoloLoop arr stack j (ev :: rest2) =
          mergeSoloLoop arr (j :: stack) (j + 1) rest2 := by
        show (if ev.type = eventTypes.soloSectionStart then _ else _) = _
        rw [if_pos h1]
      rw [hstep]
      apply ih arr (j :: stack) (j + 1) hlen hdrop2
        (fun i hi => hhigh i (Nat.le_of_succ_le hi))
      · exact List.pairwise_cons.mpr ⟨fun i hi => (hstack i hi).1, hspw⟩
      · intro i hi
        rcases List.mem_cons.mp hi with rfl | hi2
        · have harr_j : arr.getD i dfltEv = ev := by
            rw [hhigh i (le_refl i), hev_getD]
          refine ⟨Nat.lt_succ_self i, by omega, harr_j ▸ hev_mem, harr_j ▸ h1, ?_⟩
          intro ev2 hev2
          rw [harr_j]
          exact List.rel_of_pairwise_cons hdrop_pw hev2
        · rcases hstack i hi2 with ⟨hlt, hlen2, hmem2, htype2, hticks2⟩
          exact ⟨Nat.lt_succ_of_lt hlt, hlen2, hmem2, htype2,
            fun ev2 hev2 => hticks2 ev2 (List.mem_cons_of_mem ev hev2)⟩
      · exact hmerged
    · by_cases h2 : ev.type = eventTypes.soloSectionEnd
      · rcases stack with _ | ⟨j0, stk⟩
        · have hstep : mergeSoloLoop arr [] j (ev :: rest2) =
              mergeSoloLoop arr [] (j + 1) rest2 := by
            show (if ev.type = eventTypes.soloSectionStart then
                mergeSoloLoop arr (j :: []) (j + 1) rest2
              else if ev.type = eventTypes.soloSectionEnd then
                mergeSoloLoop arr [] (j + 1) rest2
              else mergeSoloLoop arr [] (j + 1) rest2) = _
            rw [if_neg h1, if_pos h2]
          rw [hstep]
          apply ih arr [] (j + 1) hlen hdrop2
            (fun i hi => hhigh i (Nat.le_of_succ_le hi)) hspw
          · intro i hi
            cases hi
          · exact hmerged
        · rcases hstack j0 (List.mem_cons_self j0 stk) with
            ⟨hj0_lt, hj0_len, hj0_mem, hj0_type, hj0_ticks⟩
          have hdefault : arr.getD j0 ev = arr.getD j0 dfltEv :=
            getD_eq_of_lt arr ev dfltEv j0 hj0_len
          have hstep : mergeSoloLoop arr (j0 :: stk) j (ev :: rest2) =
              mergeSoloLoop
                (arr.set j0 { arr.getD j0 dfltEv with
                  type := eventTypes.soloSection,
                  length := ev.tick - (arr.getD j0 dfltEv).tick + 1 }) stk (j + 1) rest2 := by
            show (if ev.type = eventTypes.soloSectionStart then
                mergeSoloLoop arr (j :: j0 :: stk) (j + 1) rest2
              else if ev.type = eventTypes.soloSectionEnd then
                mergeSoloLoop
                  (arr.set j0 { arr.getD j0 ev with
                    type := eventTypes.soloSection,
                    length := ev.tick - (arr.getD j0 ev).tick + 1 }) stk (j + 1) rest2
              else mergeSoloLoop arr (j0 :: stk) (j + 1) rest2) = _
            rw [if_neg h1, if_pos h2, hdefault]
          rw [hstep]
          have hspw2 : stk.Pairwise (fun a b => b < a) := hspw.tail
          have hstk_lt_j0 : ∀ i ∈ stk, i < j0 :=
            fun i hi => List.rel_of_pairwise_cons hspw hi
          apply ih _ stk (j + 1)
          · rw [List.length_set]; exact hlen
          · exact hdrop2
          · intro i hi
            rw [getD_set_ne arr dfltEv _ j0 i (by omega)]
            exact hhigh i (Nat.le_of_succ_le hi)
          · exact hspw2
          · intro i hi
            have hij0 : i ≠ j0 := Nat.ne_of_lt (hstk_lt_j0 i hi)
            rcases hstack i (List.mem_cons_of_mem j0 hi) with
              ⟨hlt, hlen2, hmem2, htype2, hticks2⟩
            rw [getD_set_ne arr dfltEv _ j0 i (fun h => hij0 h.symm)]
            refine ⟨Nat.lt_succ_of_lt hlt, by rw [List.length_set]; exact hlen2,
              hmem2, htype2, ?_⟩
            intro ev2 hev2
            exact hticks2 ev2 (List.mem_cons_of_mem ev hev2)
          · intro e he
            rcases List.mem_or_eq_of_mem_set he with hin | rfl
            · exact hmerged e hin
            · right
              refine ⟨rfl, arr.getD j0 dfltEv, hj0_mem, hj0_type, rfl, ev, hev_mem, h2,
                hj0_ticks ev (List.mem_cons_self ev rest2), rfl⟩
      · rcases stack with _ | ⟨j0, stk⟩
        · have hstep : mergeSoloLoop arr [] j (ev :: rest2) =
              mergeSoloLoop arr [] (j + 1) rest2 := by
            show (if ev.type = eventTypes.soloSectionStart then
                mergeSoloLoop arr (j :: []) (j + 1) rest2
              else if ev.type = eventTypes.soloSectionEnd then
                mergeSoloLoop arr [] (j + 1) rest2
              else mergeSoloLoop arr [] (j + 1) rest2) = _
            rw [if_neg h1, if_neg h2]
          rw [hstep]
          apply ih arr [] (j + 1) hlen hdrop2
            (fun i hi => hhigh i (Nat.le_of_succ_le hi)) hspw
          · intro i hi
            cases hi
          · exact hmerged
        · have hstep : mergeSoloLoop arr (j0 :: stk) j (ev :: rest2) =
              mergeSoloLoop arr (j0 :: stk) (j + 1) rest2 := by
            show (if ev.type = eventTypes.soloSectionStart then
                mergeSoloLoop arr (j :: j0 :: stk) (j + 1) rest2
              else if ev.type = eventTypes.soloSectionEnd then
                mergeSoloLoop
                  (arr.set j0 { arr.getD j0 ev with
                    type := eventTypes.soloSection,
                    length := ev.tick - (arr.getD j0 ev).tick + 1 }) stk (j + 1) rest2
              else mergeSoloLoop arr (j0 :: stk) (j + 1) rest2) = _
            rw [if_neg h1, if_neg h2]
          rw [hstep]
          apply ih arr (j0 :: stk) (j + 1) hlen hdrop2
            (fun i hi => hhigh i (Nat.le_of_succ_le hi)) hspw
          · intro i hi
            rcases hstack i hi with ⟨hlt, hlen2, hmem2, htype2, hticks2⟩
            exact ⟨Nat.lt_succ_of_lt hlt, hlen2, hmem2, htype2,
              fun ev2 hev2 => hticks2 ev2 (List.mem_cons_of_mem ev hev2)⟩
          · exact hmerged

/-! ## Claim C9: solo/soloend pairs merge with length endTick - startTick + 1. -/

/-- C9 (confirmed): after the per-track events are ordered by tick, every
    soloSection produced by mergeSoloEvents arises from a matched solo start
    and a soloend, starts at the start tick, and has length
    endTick - startTick + 1; no solo start or end markers survive. -/
theorem mergeSoloEvents_merges_pairs (events : List TrackEventR)
    (hsorted : events.Pairwise (fun a b => a.tick ≤ b.tick))
    (hnosolo : ∀ ev ∈ events, ev.type ≠ eventTypes.soloSection) :
    ∀ e ∈ mergeSoloEvents events,
      e.type ≠ eventTypes.soloSectionStart ∧ e.type ≠ eventTypes.soloSectionEnd ∧
      (e.type = eventTypes.soloSection →
        ∃ s ∈ events, s.type = eventTypes.soloSectionStart ∧ s.tick = e.tick ∧
          ∃ en ∈ events, en.type = eventTypes.soloSectionEnd ∧ s.tick ≤ en.tick ∧
            e.length = en.tick - s.tick + 1) := by
  intro e he
  have h := mergeSoloLoop_spec events hsorted hnosolo events events [] 0
    rfl rfl (fun i _ => rfl) List.Pairwise.nil (by simp)
    (fun e he => Or.inl he) e he
  exact ⟨h.1, h.2.1, fun ht => (h.2.2 ht).2⟩

/-- Witness for mergeSoloEvents_merges_pairs: a solo spanning ticks
    [100, 200] yields a soloSection of length 101. -/
theorem mergeSoloEvents_merges_pairs_witness :
    mergeSoloEvents [⟨100, 0, eventTypes.soloSectionStart⟩, ⟨200, 0, eventTypes.soloSectionEnd⟩] =
      [⟨100, 101, eventTypes.soloSection⟩] ∧
    (([⟨100, 0, eventTypes.soloSectionStart⟩, ⟨200, 0, eventTypes.soloSectionEnd⟩] :
      List TrackEventR).Pairwise (fun a b => a.tick ≤ b.tick)) ∧
    ((⟨100, 101, eventTypes.soloSection⟩ : TrackEventR).type ≠ eventTypes.soloSectionStart ∧
      (⟨100, 101, eventTypes.soloSection⟩ : TrackEventR).type ≠ eventTypes.soloSectionEnd ∧
      ((⟨100, 101, eventTypes.soloSection⟩ : TrackEventR).type = eventTypes.soloSection →
        ∃ s ∈ ([⟨100, 0, eventTypes.soloSectionStart⟩, ⟨200, 0, eventTypes.soloSectionEnd⟩] :
            List TrackEventR), s.type = eventTypes.soloSectionStart ∧ s.tick = 100 ∧
          ∃ en ∈ ([⟨100, 0, eventTypes.soloSectionStart⟩, ⟨200, 0, eventTypes.soloSectionEnd⟩] :
              List TrackEventR), en.type = eventTypes.soloSectionEnd ∧ s.tick ≤ en.tick ∧
            (101 : Nat) = en.tick - s.tick + 1)) :=
  ⟨by decide, by decide,
    mergeSoloEvents_merges_pairs _ (by decide) (by decide)
      ⟨100, 101, eventTypes.soloSection⟩ (by decide)⟩

/-! ## The .mid header checks and sync-track extraction
    (src/chart/midi-parser.ts), and the .chart time-signature stage
    (src/chart/chart-parser.ts).

    parseNotesFromMidi throws in exactly three places: header format other
    than 1, missing/zero ticksPerBeat (SMPTE timing), and zero tracks; every
    later stage of the .mid parser (track-name detection, event
    distribution, modifier splitting, legacy star power, flex-lane gating)
    contains no throw statement.  The embedding below therefore covers the
    complete error behaviour of the .mid parse together with its tempo and
    time-signature extraction.  MIDI events other than setTempo and
    timeSignature are represented by a single constructor since the sync
    extraction filters them out. -/

/-- A track-0 MIDI event as far as the sync extraction reads it. -/
inductive MidiEvent where
  | setTempo (deltaTime : Nat) (microsecondsPerBeat : Nat)
  | timeSignature (deltaTime : Nat) (numerator : Nat) (denominator : Nat)
  | otherEvent (deltaTime : Nat)
deriving DecidableEq, Repr

/-- The deltaTime field of a MIDI event. -/
def MidiEvent.deltaTime : MidiEvent → Nat
  | .setTempo d _ => d
  | .timeSignature d _ _ => d
  | .otherEvent d => d

/-- Replace the deltaTime field (used by the absolute-time conversion). -/
def MidiEvent.withDeltaTime : MidiEvent → Nat → MidiEvent
  | .setTempo _ us, d => .setTempo d us
  | .timeSignature _ n dd, d => .timeSignature d n dd
  | .otherEvent _, d => .otherEvent d

/-- The header of a parsed SMF file; ticksPerBeat is absent for SMPTE
    timing. -/
structure MidiHeader where
  format : Nat
  ticksPerBeat : Option Nat
deriving DecidableEq, Repr

/-- A parsed SMF file as returned by the external midi-file library. -/
structure MidiData where
  header : MidiHeader
  tracks : List (List MidiEvent)
deriving DecidableEq, Repr

/-- Source function convertToAbsoluteTime, one track: each deltaTime becomes
    the running sum of delta times. -/
def convertTrackAbs (currentTick : Nat) : List MidiEvent → List MidiEvent
  | [] => []
  | e :: es =>
    e.withDeltaTime (currentTick + e.deltaTime) :: convertTrackAbs (currentTick + e.deltaTime) es

/-- Source function convertToAbsoluteTime. -/
def convertToAbsoluteTime (midiData : MidiData) : MidiData :=
  { midiData with tracks := midiData.tracks.map (convertTrackAbs 0) }

/-- A tempo marker of the raw chart model with the .mid beats-per-minute
    value 60000000 / microsecondsPerBeat (an f64 division in the source,
    exact here). -/
structure MidiTempo where
  tick : Nat
  beatsPerMinute : ℚ
deriving DecidableEq, Repr

/-- The lodash tap on the .mid tempo list: synthesize 120 BPM at tick 0 when
    the list does not start there. -/
def prependDefaultTempo (tempos : List MidiTempo) : List MidiTempo :=
  match tempos with
  | [] => [⟨0, 120⟩]
  | t0 :: rest => if t0.tick ≠ 0 then ⟨0, 120⟩ :: t0 :: rest else t0 :: rest

/-- The lodash tap on a time-signature list: synthesize 4/4 at tick 0 when
    the list does not start there (shared by the .mid and .chart parsers). -/
def prependDefaultTimeSignature (ts : List TimeSignature) : List TimeSignature :=
  match ts with
  | [] => [⟨0, 4, 4⟩]
  | t0 :: rest => if t0.tick ≠ 0 then ⟨0, 4, 4⟩ :: t0 :: rest else t0 :: rest

/-- The tempo extraction of parseNotesFromMidi over (absolute-time) track 0:
    filter setTempo events, convert to BPM, synthesize a leading 120. -/
def midiTempos (track0 : List MidiEvent) : List MidiTempo :=
  prependDefaultTempo (track0.filterMap (fun e =>
    match e with
    | .setTempo d us => some ⟨d, (60000000 : ℚ) / (us : ℚ)⟩
    | _ => none))

/-- The time-signature extraction of parseNotesFromMidi over track 0:
    filter timeSignature events, synthesize a leading 4/4.  Note: there is
    NO check that the numerator or denominator is nonzero. -/
def midiTimeSignatures (track0 : List MidiEvent) : List TimeSignature :=
  prependDefaultTimeSignature (track0.filterMap (fun e =>
    match e with
    | .timeSignature d n dd => some ⟨d, n, dd⟩
    | _ => none))

/-- The fallible prefix of parseNotesFromMidi together with its sync-track
    output: the three header checks (the only throw sites of the whole .mid
    parser) followed by the tempo and time-signature extraction.  The first
    error message reproduces the source misspelling. -/
def parseNotesFromMidiSync (midiFile : MidiData) :
    Except String (Nat × List MidiTempo × List TimeSignature) :=
  if midiFile.header.format ≠ 1 then
    .error "Invavlid .mid file: unsupported header format"
  else
    match midiFile.header.ticksPerBeat with
    | none => .error "Invalid .mid file: resolution in ticks per SMPTE frame is not supported"
    | some ticksPerBeat =>
      if ticksPerBeat = 0 then
        .error "Invalid .mid file: resolution in ticks per SMPTE frame is not supported"
      else if midiFile.tracks.length = 0 then
        .error "Invalid .mid file: no tracks detected"
      else
        let converted := convertToAbsoluteTime midiFile
        let track0 := converted.tracks.headD []
        .ok (ticksPerBeat, midiTempos track0, midiTimeSignatures track0)

/-- A regex match result of a .chart SyncTrack TS line
    `tick = TS num [denomExp]`. -/
structure RawTS where
  tick : Nat
  numerator : Nat
  denominatorExp : Option Nat
deriving DecidableEq, Repr

/-- The time-signature stage of parseNotesFromChart: map the matched lines
    (denominator 2^exp, default 4), throw on a zero numerator or zero
    denominator, then synthesize a leading 4/4.  The error strings say
    ".mid" in the source even though this is the .chart parser. -/
def chartMapTS (raw : List RawTS) : List TimeSignature :=
  raw.map (fun r => TimeSignature.mk r.tick r.numerator
    (match r.denominatorExp with | some e => 2 ^ e | none => 4))

def chartTimeSignaturesStage (raw : List RawTS) : Except String (List TimeSignature) :=
  match (chartMapTS raw).find? (fun t => decide (t.numerator = 0)) with
  | some z =>
    .error ("Invalid .mid file: Time signature numerator at tick " ++ toString z.tick ++ " was zero.")
  | none =>
    match (chartMapTS raw).find? (fun t => decide (t.denominator = 0)) with
    | some z =>
      .error ("Invalid .mid file: Time signature denominator at tick " ++ toString z.tick ++ " was zero.")
    | none => .ok (prependDefaultTimeSignature (chartMapTS raw))

/-! ## Claim C5: zero time-signature components. -/

/-- A format-1 metric .mid file whose only event is a time signature with a
    zero numerator at tick 0. -/
def c5MidiData : MidiData :=
  { header := { format := 1, ticksPerBeat := some 480 }
    tracks := [[MidiEvent.timeSignature 0 0 4]] }

/-- C5 counterexample: the .mid parser accepts a chart containing a
    time-signature marker with a zero numerator — it returns the parsed
    result (with the zero-numerator marker in it) instead of aborting, so
    zero time-signature components are NOT a fatal parse error in both
    formats. -/
theorem parseNotesFromMidi_accepts_zero_timeSignature :
    parseNotesFromMidiSync c5MidiData = .ok (480, [⟨0, 120⟩], [⟨0, 0, 4⟩]) ∧
    (⟨0, 0, 4⟩ : TimeSignature).numerator = 0 := by
  constructor
  · rfl
  · rfl

/-- C5 (corrected): a zero time-signature numerator is a fatal parse error
    in the .chart parser, while the .mid parser performs no such check: any
    format-1 metric .mid file with at least one track parses successfully,
    whatever time-signature components it contains. -/
theorem zero_timeSignature_fatal_only_in_chart :
    (∀ raw : List RawTS, (∃ r ∈ raw, r.numerator = 0) →
      ∃ msg, chartTimeSignaturesStage raw = .error msg) ∧
    (∀ m : MidiData, m.header.format = 1 →
      ∀ tpb, m.header.ticksPerBeat = some tpb → tpb ≠ 0 → m.tracks ≠ [] →
        parseNotesFromMidiSync m =
          .ok (tpb, midiTempos ((convertToAbsoluteTime m).tracks.headD []),
            midiTimeSignatures ((convertToAbsoluteTime m).tracks.headD []))) := by
  constructor
  · intro raw ⟨r, hr, hrz⟩
    unfold chartTimeSignaturesStage
    rcases hfind : (chartMapTS raw).find? (fun t => decide (t.numerator = 0)) with _ | z
    · exfalso
      have hmem : (TimeSignature.mk r.tick r.numerator
          (match r.denominatorExp with | some e => 2 ^ e | none => 4)) ∈ chartMapTS raw :=
        List.mem_map_of_mem _ hr
      have := List.find?_eq_none.mp hfind _ hmem
      simp [hrz] at this
    · rw [hfind]
      exact ⟨_, rfl⟩
  · intro m hformat tpb htpb htpbz htracks
    unfold parseNotesFromMidiSync
    rw [if_neg (by rw [hformat]; exact fun h => h rfl), htpb]
    dsimp only
    rw [if_neg htpbz, if_neg (by simpa [List.length_eq_zero] using htracks)]

/-- Witness for zero_timeSignature_fatal_only_in_chart: a .chart TS line
    `0 = TS 0` aborts the parse, and c5MidiData parses successfully. -/
theorem zero_timeSignature_fatal_only_in_chart_witness :
    (∃ r ∈ [(⟨0, 0, none⟩ : RawTS)], r.numerator = 0) ∧
    (∃ msg, chartTimeSignaturesStage [⟨0, 0, none⟩] = .error msg) ∧
    c5MidiData.header.format = 1 ∧ c5MidiData.header.ticksPerBeat = some 480 ∧
    parseNotesFromMidiSync c5MidiData =
      .ok (480, midiTempos ((convertToAbsoluteTime c5MidiData).tracks.headD []),
        midiTimeSignatures ((convertToAbsoluteTime c5MidiData).tracks.headD [])) :=
  ⟨⟨⟨0, 0, none⟩, by simp, rfl⟩,
    (zero_timeSignature_fatal_only_in_chart.1 [⟨0, 0, none⟩] ⟨⟨0, 0, none⟩, by simp, rfl⟩),
    rfl, rfl,
    zero_timeSignature_fatal_only_in_chart.2 c5MidiData rfl 480 rfl (by decide)
      (by decide)⟩

/-! ## Overlap repair (src/chart/notes-parser.ts).
    Three functions: sortAndFixInvalidEventOverlaps (star power and solos),
    sortAndFixInvalidFlexLaneOverlaps (flex lanes), and
    sortAndFixInvalidNoteOverlaps (notes).  The source sorts with
    Array.prototype.sort (stable in all modern engines, modelled by a stable
    insertion sort), removes an element when it duplicates the key of the
    element before it, and then repairs sustained overlaps by truncating the
    earlier event and extending the later one.  The ms fields that the
    source updates in lockstep with the tick fields are not modelled: the
    overlap claims are about ticks only, and the ms updates read and write
    only ms fields. -/

/-- Default note used to totalize list indexing. -/
def dfltNote : Note := ⟨0, 0, 0, 0⟩

/-- The duplicate-removal loops of the source: drop an element when it has
    the same key as the element immediately before it (kept or not). -/
def removeDupByGo {α : Type} (sameKey : α → α → Bool) (prev : α) : List α → List α
  | [] => []
  | y :: ys =>
    if sameKey y prev then removeDupByGo sameKey y ys
    else y :: removeDupByGo sameKey y ys

/-- Duplicate removal over a whole list (the first element is never
    removed, since the source loops start at index 1). -/
def removeDupBy {α : Type} (sameKey : α → α → Bool) : List α → List α
  | [] => []
  | x :: xs => x :: removeDupByGo sameKey x xs

/-- The note comparator `a.type - b.type || b.length - a.length || b.flags - a.flags`. -/
def noteSortRel (a b : Note) : Prop :=
  a.type < b.type ∨ (a.type = b.type ∧
    (b.length < a.length ∨ (a.length = b.length ∧ b.flags ≤ a.flags)))

instance : DecidableRel noteSortRel := fun a b => by unfold noteSortRel; infer_instance

instance : IsTotal Note noteSortRel := ⟨by intro a b; unfold noteSortRel; omega⟩

instance : IsTrans Note noteSortRel := ⟨by intro a b c; unfold noteSortRel; omega⟩

/-- The phrase comparator `a.tick - b.tick || b.length - a.length`. -/
def phraseSortRel (a b : Phrase) : Prop :=
  a.tick < b.tick ∨ (a.tick = b.tick ∧ b.length ≤ a.length)

instance : DecidableRel phraseSortRel := fun a b => by unfold phraseSortRel; infer_instance

instance : IsTotal Phrase phraseSortRel := ⟨by intro a b; unfold phraseSortRel; omega⟩

instance : IsTrans Phrase phraseSortRel := ⟨by intro a b c; unfold phraseSortRel; omega⟩

/-- The flex-lane comparator: tick ascending, isDouble false first, length
    descending. -/
def flexSortRel (a b : FlexLane) : Prop :=
  a.tick < b.tick ∨ (a.tick = b.tick ∧
    ((a.isDouble = false ∧ b.isDouble = true) ∨
      (a.isDouble = b.isDouble ∧ b.length ≤ a.length)))

instance : DecidableRel flexSortRel := fun a b => by unfold flexSortRel; infer_instance

instance : IsTotal FlexLane flexSortRel :=
  ⟨by intro a b; unfold flexSortRel; cases ha : a.isDouble <;> cases hb : b.isDouble <;> simp <;> omega⟩

instance : IsTrans FlexLane flexSortRel :=
  ⟨by intro a b c
      unfold flexSortRel
      cases ha : a.isDouble <;> cases hb : b.isDouble <;> cases hc : c.isDouble <;> simp <;> omega⟩

/-- Phase 1 of sortAndFixInvalidNoteOverlaps, per tick group: sort by
    (type, length descending, flags descending), then remove same-type
    duplicates keeping the first (the longest). -/
def fixNoteGroup (g : List Note) : List Note :=
  removeDupBy (fun a b => decide (a.type = b.type)) (g.insertionSort noteSortRel)

/-- Phase 2 of sortAndFixInvalidNoteOverlaps.  The source walks all notes
    in group order with a map from note type to the previous note of that
    type, truncating the previous note and extending the current one on
    overlap.  The in-place mutation of the previous note is modelled with an
    explicit processed-list state and a type-to-index map (lookup returns
    the newest binding). -/
def fixNoteOverlapsGo (processed : List Note) (lastOf : List (Nat × Nat)) :
    List Note → List Note
  | [] => processed
  | n :: ns =>
    match lastOf.lookup n.type with
    | none => fixNoteOverlapsGo (processed ++ [n]) ((n.type, processed.length) :: lastOf) ns
    | some i =>
      let prev := processed.getD i dfltNote
      if prev.tick + prev.length > n.tick then
        fixNoteOverlapsGo
          ((processed.set i { prev with length := n.tick - prev.tick }) ++
            [{ n with length := max n.length (prev.length - (n.tick - prev.tick)) }])
          ((n.type, processed.length) :: lastOf) ns
      else fixNoteOverlapsGo (processed ++ [n]) ((n.type, processed.length) :: lastOf) ns

/-- Source function sortAndFixInvalidNoteOverlaps, giving the final notes in
    iteration order (the source mutates the groups in place; the flattened
    view lists the same notes). -/
def sortAndFixInvalidNoteOverlaps (noteGroups : List (List Note)) : List Note :=
  fixNoteOverlapsGo [] [] ((noteGroups.map fixNoteGroup).flatten)

/-- The overlap-repair walk of sortAndFixInvalidEventOverlaps: on overlap
    the earlier event is truncated to end at the later start and the later
    event is extended to cover the remainder when longer. -/
def fixOverlapsGo (previousEvent : Phrase) : List Phrase → List Phrase
  | [] => [previousEvent]
  | e :: es =>
    if previousEvent.tick + previousEvent.length > e.tick then
      { previousEvent with length := e.tick - previousEvent.tick } ::
        fixOverlapsGo
          { e with length := max e.length (previousEvent.length - (e.tick - previousEvent.tick)) } es
    else previousEvent :: fixOverlapsGo e es

/-- Source function sortAndFixInvalidEventOverlaps. -/
def sortAndFixInvalidEventOverlaps (events : List Phrase) : List Phrase :=
  match removeDupBy (fun a b => decide (a.tick = b.tick)) (events.insertionSort phraseSortRel) with
  | [] => []
  | x :: xs => fixOverlapsGo x xs

/-- Source function sortAndFixInvalidFlexLaneOverlaps: sort, then remove
    events duplicating both the tick and the isDouble of the previous event;
    there is no sustain-overlap repair pass. -/
def sortAndFixInvalidFlexLaneOverlaps (events : List FlexLane) : List FlexLane :=
  removeDupBy (fun a b => decide (a.tick = b.tick) && decide (a.isDouble = b.isDouble))
    (events.insertionSort flexSortRel)

/-- Two phrases overlap when the half-open intervals [tick, tick+length)
    intersect. -/
def PhraseOverlap (a b : Phrase) : Prop :=
  max a.tick b.tick < min (a.tick + a.length) (b.tick + b.length)

/-- Two notes overlap when the half-open intervals [tick, tick+length)
    intersect. -/
def NoteOverlap (a b : Note) : Prop :=
  max a.tick b.tick < min (a.tick + a.length) (b.tick + b.length)

/-- Two flex lanes overlap when the half-open intervals [tick, tick+length)
    intersect. -/
def FlexOverlap (a b : FlexLane) : Prop :=
  max a.tick b.tick < min (a.tick + a.length) (b.tick + b.length)

theorem removeDupByGo_strict {α : Type} (κ : α → Nat) (sameKey : α → α → Bool)
    (hkey : ∀ a b, sameKey a b = true ↔ κ a = κ b) :
    ∀ (l : List α) (prev : α),
      (∀ z ∈ l, κ prev ≤ κ z) →
      l.Pairwise (fun a b => κ a ≤ κ b) →
      (removeDupByGo sameKey prev l).Pairwise (fun a b => κ a < κ b) ∧
      (∀ z ∈ removeDupByGo sameKey prev l, κ prev < κ z) ∧
      (∀ z ∈ removeDupByGo sameKey prev l, z ∈ l) := by
  intro l
  induction l with
  | nil => intro prev _ _; exact ⟨List.Pairwise.nil, by simp [removeDupByGo], by simp [removeDupByGo]⟩
  | cons y ys ih =>
    intro prev hge hpw
    have hys_ge_y : ∀ z ∈ ys, κ y ≤ κ z := fun z hz => List.rel_of_pairwise_cons hpw hz
    by_cases h : sameKey y prev = true
    · have hyp : κ y = κ prev := (hkey y prev).mp h
      have hstep : removeDupByGo sameKey prev (y :: ys) = removeDupByGo sameKey y ys := by
        show (if sameKey y prev then removeDupByGo sameKey y ys
          else y :: removeDupByGo sameKey y ys) = _
        rw [if_pos h]
      rw [hstep]
      rcases ih y hys_ge_y hpw.tail with ⟨hp, hgt, hmem⟩
      exact ⟨hp, fun z hz => hyp ▸ hgt z hz, fun z hz => List.mem_cons_of_mem y (hmem z hz)⟩
    · have hyp : κ prev < κ y := by
        have h1 : κ prev ≤ κ y := hge y (List.mem_cons_self y ys)
        have h2 : κ y ≠ κ prev := fun he => h ((hkey y prev).mpr he)
        omega
      have hstep : removeDupByGo sameKey prev (y :: ys) = y :: removeDupByGo sameKey y ys := by
        show (if sameKey y prev then removeDupByGo sameKey y ys
          else y :: removeDupByGo sameKey y ys) = _
        rw [if_neg h]
      rw [hstep]
      rcases ih y hys_ge_y hpw.tail with ⟨hp, hgt, hmem⟩
      refine ⟨List.pairwise_cons.mpr ⟨hgt, hp⟩, ?_, ?_⟩
      · intro z hz
        rcases List.mem_cons.mp hz with rfl | hz2
        · exact hyp
        · exact lt_trans hyp (hgt z hz2)
      · intro z hz
        rcases List.mem_cons.mp hz with rfl | hz2
        · exact List.mem_cons_self z ys
        · exact List.mem_cons_of_mem y (hmem z hz2)

theorem removeDupBy_strict {α : Type} (κ : α → Nat) (sameKey : α → α → Bool)
    (hkey : ∀ a b, sameKey a b = true ↔ κ a = κ b) (l : List α)
    (hpw : l.Pairwise (fun a b => κ a ≤ κ b)) :
    (removeDupBy sameKey l).Pairwise (fun a b => κ a < κ b) ∧
    (∀ z ∈ removeDupBy sameKey l, z ∈ l) := by
  cases l with
  | nil => exact ⟨List.Pairwise.nil, by simp [removeDupBy]⟩
  | cons x xs =>
    rcases removeDupByGo_strict κ sameKey hkey xs x
      (fun z hz => List.rel_of_pairwise_cons hpw hz) hpw.tail with ⟨hp, hgt, hmem⟩
    constructor
    · exact List.pairwise_cons.mpr ⟨hgt, hp⟩
    · intro z hz
      rcases List.mem_cons.mp hz with rfl | hz2
      · exact List.mem_cons_self z xs
      · exact List.mem_cons_of_mem x (hmem z hz2)

theorem fixOverlapsGo_separated :
    ∀ (es : List Phrase) (prev : Phrase),
      es.Pairwise (fun a b => a.tick < b.tick) →
      (∀ z ∈ es, prev.tick < z.tick) →
      (fixOverlapsGo prev es).Pairwise (fun a b => a.tick + a.length ≤ b.tick) ∧
      (fixOverlapsGo prev es).map Phrase.tick = (prev :: es).map Phrase.tick := by
  intro es
  induction es with
  | nil =>
    intro prev _ _
    exact ⟨List.pairwise_singleton _ _, rfl⟩
  | cons e es ih =>
    intro prev hpw hgt
    have he_lt : prev.tick < e.tick := hgt e (List.mem_cons_self e es)
    have hes_gt : ∀ z ∈ es, e.tick < z.tick := fun z hz => List.rel_of_pairwise_cons hpw hz
    by_cases hov : prev.tick + prev.length > e.tick
    · have hstep : fixOverlapsGo prev (e :: es) =
          { prev with length := e.tick - prev.tick } ::
            fixOverlapsGo
              { e with length := max e.length (prev.length - (e.tick - prev.tick)) } es := by
        show (if prev.tick + prev.length > e.tick then _ else _) = _
        rw [if_pos hov]
      rcases ih { e with length := max e.length (prev.length - (e.tick - prev.tick)) }
        hpw.tail hes_gt with ⟨hp, hticks⟩
      rw [hstep]
      constructor
      · refine List.pairwise_cons.mpr ⟨?_, hp⟩
        intro z hz
        have hz_tick : z.tick ∈ (fixOverlapsGo
            { e with length := max e.length (prev.length - (e.tick - prev.tick)) } es).map Phrase.tick :=
          List.mem_map_of_mem Phrase.tick hz
        rw [hticks] at hz_tick
        simp only [List.map_cons, List.mem_cons] at hz_tick
        have hz_ge : e.tick ≤ z.tick := by
          rcases hz_tick with h | h
          · omega
          · rcases List.mem_map.mp h with ⟨w, hw, hwz⟩
            have := hes_gt w hw
            omega
        show prev.tick + (e.tick - prev.tick) ≤ z.tick
        omega
      · rw [List.map_cons, hticks]
        rfl
    · have hstep : fixOverlapsGo prev (e :: es) = prev :: fixOverlapsGo e es := by
        show (if prev.tick + prev.length > e.tick then _ else _) = _
        rw [if_neg hov]
      rcases ih e hpw.tail hes_gt with ⟨hp, hticks⟩
      rw [hstep]
      constructor
      · refine List.pairwise_cons.mpr ⟨?_, hp⟩
        intro z hz
        have hz_tick : z.tick ∈ (fixOverlapsGo e es).map Phrase.tick :=
          List.mem_map_of_mem Phrase.tick hz
        rw [hticks] at hz_tick
        simp only [List.map_cons, List.mem_cons] at hz_tick
        have hz_ge : e.tick ≤ z.tick := by
          rcases hz_tick with h | h
          · omega
          · rcases List.mem_map.mp h with ⟨w, hw, hwz⟩
            have := hes_gt w hw
            omega
        omega
      · rw [List.map_cons, hticks]
        rfl

theorem sortAndFixInvalidEventOverlaps_separated (events : List Phrase) :
    (sortAndFixInvalidEventOverlaps events).Pairwise (fun a b => a.tick + a.length ≤ b.tick) := by
  have hsorted : (events.insertionSort phraseSortRel).Pairwise phraseSortRel :=
    List.sorted_insertionSort phraseSortRel events
  have hle : (events.insertionSort phraseSortRel).Pairwise (fun a b => a.tick ≤ b.tick) := by
    refine hsorted.imp ?_
    intro a b hab
    unfold phraseSortRel at hab
    omega
  have hkey : ∀ a b : Phrase, (decide (a.tick = b.tick) = true) ↔ a.tick = b.tick := by
    intro a b; simp
  rcases removeDupBy_strict Phrase.tick _ hkey _ hle with ⟨hstrict, _⟩
  unfold sortAndFixInvalidEventOverlaps
  rcases hdd : removeDupBy (fun a b => decide (a.tick = b.tick))
      (events.insertionSort phraseSortRel) with _ | ⟨x, xs⟩
  · rw [hdd]
    exact List.Pairwise.nil
  · rw [hdd]
    rw [hdd] at hstrict
    exact (fixOverlapsGo_separated xs x hstrict.tail
      (fun z hz => List.rel_of_pairwise_cons hstrict hz)).1

theorem getD_append_lt {α : Type} (l1 l2 : List α) (d : α) (j : Nat) (h : j < l1.length) :
    (l1 ++ l2).getD j d = l1.getD j d := by
  rw [List.getD, List.getD, List.get?_eq_getElem?, List.get?_eq_getElem?,
    List.getElem?_append_left h]

theorem getD_append_len {α : Type} (l : List α) (x d : α) :
    (l ++ [x]).getD l.length d = x := by
  rw [List.getD, List.get?_eq_getElem?]
  rw [List.getElem?_append_right (le_refl _)]
  simp

theorem getD_set_eq {α : Type} (l : List α) (a d : α) (i : Nat) (h : i < l.length) :
    (l.set i a).getD i d = a := by
  rw [List.getD, List.get?_eq_getElem?, List.getElem?_set_self h]
  rfl

theorem lookup_cons_self {β : Type} (k : Nat) (v : β) (es : List (Nat × β)) :
    List.lookup k ((k, v) :: es) = some v := by
  simp [List.lookup]

theorem lookup_cons_ne {β : Type} (t k : Nat) (v : β) (es : List (Nat × β)) (h : t ≠ k) :
    List.lookup t ((k, v) :: es) = List.lookup t es := by
  have hbeq : (t == k) = false := beq_eq_false_iff_ne.mpr h
  simp [List.lookup, hbeq]

/-- The state invariant of the phase-2 note walk: lastOf maps each type to
    the index of the newest processed note of that type, every processed
    type is mapped, and any processed note followed by a later same-type
    note ends no later than that note starts. -/
def NoteWalkInv (processed : List Note) (lastOf : List (Nat × Nat)) : Prop :=
  (∀ t i, lastOf.lookup t = some i → i < processed.length ∧
    (processed.getD i dfltNote).type = t ∧
    ∀ j, i < j → j < processed.length → (processed.getD j dfltNote).type ≠ t) ∧
  (∀ j, j < processed.length →
    (lastOf.lookup (processed.getD j dfltNote).type).isSome = true) ∧
  (∀ i j, i < j → j < processed.length →
    (processed.getD i dfltNote).type = (processed.getD j dfltNote).type →
    (processed.getD i dfltNote).tick + (processed.getD i dfltNote).length ≤
      (processed.getD j dfltNote).tick)

theorem noteAppend_invariants (processed : List Note) (lastOf : List (Nat × Nat)) (n : Note)
    (hinv : NoteWalkInv processed lastOf)
    (hend : ∀ i1, i1 < processed.length → (processed.getD i1 dfltNote).type = n.type →
      (processed.getD i1 dfltNote).tick + (processed.getD i1 dfltNote).length ≤ n.tick) :
    NoteWalkInv (processed ++ [n]) ((n.type, processed.length) :: lastOf) := by
  obtain ⟨hsound, hcomplete, hsafe⟩ := hinv
  have hlen : (processed ++ [n]).length = processed.length + 1 := by simp
  refine ⟨?_, ?_, ?_⟩
  · intro t i hl
    by_cases ht : t = n.type
    · subst ht
      rw [lookup_cons_self] at hl
      have hi : i = processed.length := (Option.some.inj hl).symm
      subst hi
      refine ⟨by omega, ?_, ?_⟩
      · rw [getD_append_len]
      · intro j hij hjlen
        omega
    · rw [lookup_cons_ne _ _ _ _ ht] at hl
      rcases hsound t i hl with ⟨hiL, htype_i, hno⟩
      refine ⟨by omega, by rw [getD_append_lt _ _ _ _ hiL]; exact htype_i, ?_⟩
      intro j hij hjlen
      by_cases hjL : j < processed.length
      · rw [getD_append_lt _ _ _ _ hjL]
        exact hno j hij hjL
      · have hjeq : j = processed.length := by omega
        subst hjeq
        rw [getD_append_len]
        exact fun h => ht h.symm
  · intro j hj
    by_cases hjL : j < processed.length
    · rw [getD_append_lt _ _ _ _ hjL]
      by_cases ht : (processed.getD j dfltNote).type = n.type
      · rw [ht, lookup_cons_self]
        rfl
      · rw [lookup_cons_ne _ _ _ _ ht]
        exact hcomplete j hjL
    · have hjeq : j = processed.length := by omega
      subst hjeq
      rw [getD_append_len, lookup_cons_self]
      rfl
  · intro i j hij hj htype2
    by_cases hjL : j < processed.length
    · rw [getD_append_lt _ _ _ _ hjL] at htype2 ⊢
      rw [getD_append_lt _ _ _ _ (by omega : i < processed.length)] at htype2 ⊢
      exact hsafe i j hij hjL htype2
    · have hjeq : j = processed.length := by omega
      subst hjeq
      have hiL : i < processed.length := hij
      rw [getD_append_len] at htype2 ⊢
      rw [getD_append_lt _ _ _ _ hiL] at htype2 ⊢
      exact hend i hiL htype2

theorem noteSet_invariants (processed : List Note) (lastOf : List (Nat × Nat)) (n n2 : Note)
    (i : Nat) (hinv : NoteWalkInv processed lastOf)
    (hlookup : lastOf.lookup n.type = some i)
    (hprev_lt : (processed.getD i dfltNote).tick < n.tick)
    (hn2type : n2.type = n.type) (hn2tick : n2.tick = n.tick) :
    NoteWalkInv
      ((processed.set i { processed.getD i dfltNote with
        length := n.tick - (processed.getD i dfltNote).tick }) ++ [n2])
      ((n.type, processed.length) :: lastOf) := by
  obtain ⟨hsound, hcomplete, hsafe⟩ := hinv
  rcases hsound n.type i hlookup with ⟨hiL, hitype, hino⟩
  set prev := processed.getD i dfltNote with hprev
  set prev2 : Note := { prev with length := n.tick - prev.tick } with hprev2
  have hslen : (processed.set i prev2).length = processed.length := by simp
  have hplen : ((processed.set i prev2) ++ [n2]).length = processed.length + 1 := by simp
  -- reading the new state
  have hread_i : ((processed.set i prev2) ++ [n2]).getD i dfltNote = prev2 := by
    rw [getD_append_lt _ _ _ _ (by omega : i < (processed.set i prev2).length),
      getD_set_eq _ _ _ _ hiL]
  have hread_ne : ∀ j, j < processed.length → j ≠ i →
      ((processed.set i prev2) ++ [n2]).getD j dfltNote = processed.getD j dfltNote := by
    intro j hj hne
    rw [getD_append_lt _ _ _ _ (by omega : j < (processed.set i prev2).length),
      getD_set_ne _ _ _ _ _ (fun h => hne h.symm)]
  have hread_L : ((processed.set i prev2) ++ [n2]).getD processed.length dfltNote = n2 := by
    have h2 : ((processed.set i prev2) ++ [n2]).getD (processed.set i prev2).length dfltNote = n2 :=
      getD_append_len _ _ _
    rw [hslen] at h2
    exact h2
  -- type and tick of every old position are preserved
  have htype_pres : ∀ j, j < processed.length →
      (((processed.set i prev2) ++ [n2]).getD j dfltNote).type = (processed.getD j dfltNote).type := by
    intro j hj
    by_cases hji : j = i
    · subst hji
      rw [hread_i]
    · rw [hread_ne j hj hji]
  have htick_pres : ∀ j, j < processed.length →
      (((processed.set i prev2) ++ [n2]).getD j dfltNote).tick = (processed.getD j dfltNote).tick := by
    intro j hj
    by_cases hji : j = i
    · subst hji
      rw [hread_i]
    · rw [hread_ne j hj hji]
  refine ⟨?_, ?_, ?_⟩
  · intro t i' hl
    by_cases ht : t = n.type
    · subst ht
      rw [lookup_cons_self] at hl
      have hi : i' = processed.length := (Option.some.inj hl).symm
      subst hi
      refine ⟨by omega, by rw [hread_L, hn2type], ?_⟩
      intro j hij hjlen
      omega
    · rw [lookup_cons_ne _ _ _ _ ht] at hl
      rcases hsound t i' hl with ⟨hi'L, htype_i', hno⟩
      have hi'_ne_i : i' ≠ i := by
        intro h
        subst h
        exact ht (htype_i'.symm.trans hitype)
      refine ⟨by omega, ?_, ?_⟩
      · rw [hread_ne i' hi'L hi'_ne_i]
        exact htype_i'
      · intro j hij hjlen
        by_cases hjL : j < processed.length
        · rw [htype_pres j hjL]
          by_cases hji : j = i
          · subst hji
            rw [← hprev, hitype]
            exact fun h => ht h.symm
          · exact hno j hij hjL
        · have hjeq : j = processed.length := by omega
          subst hjeq
          rw [hread_L, hn2type]
          exact fun h => ht h.symm
  · intro j hj
    by_cases hjL : j < processed.length
    · rw [htype_pres j hjL]
      by_cases ht : (processed.getD j dfltNote).type = n.type
      · rw [ht, lookup_cons_self]
        rfl
      · rw [lookup_cons_ne _ _ _ _ ht]
        exact hcomplete j hjL
    · have hjeq : j = processed.length := by omega
      subst hjeq
      rw [hread_L, hn2type, lookup_cons_self]
      rfl
  · intro i1 i2 hi12 hi2 htype2
    by_cases hi2L : i2 < processed.length
    · have hi1L : i1 < processed.length := by omega
      rw [htype_pres i1 hi1L, htype_pres i2 hi2L] at htype2
      rw [htick_pres i2 hi2L]
      by_cases h1i : i1 = i
      · -- the truncated note: a later same-type note cannot exist below L
        exfalso
        subst h1i
        rw [← hprev, hitype] at htype2
        exact hino i2 hi12 hi2L htype2.symm
      · rw [hread_ne i1 hi1L h1i]
        exact hsafe i1 i2 hi12 hi2L htype2
    · have hi2eq : i2 = processed.length := by omega
      subst hi2eq
      have hi1L : i1 < processed.length := hi12
      rw [hread_L] at htype2 ⊢
      rw [htype_pres i1 hi1L, hn2type] at htype2
      rw [hn2tick]
      by_cases h1i : i1 = i
      · subst h1i
        rw [hread_i]
        show prev.tick + (n.tick - prev.tick) ≤ n.tick
        omega
      · rw [hread_ne i1 hi1L h1i]
        -- an earlier same-type note ends before the truncated note starts
        have hi1_lt_i : i1 < i := by
          rcases Nat.lt_trichotomy i1 i with h | h | h
          · exact h
          · exact absurd h h1i
          · exact absurd htype2 (hino i1 h hi1L)
        have := hsafe i1 i hi1_lt_i hiL (htype2.trans hitype.symm)
        rw [← hprev] at this
        omega

theorem fixNoteOverlapsGo_spec :
    ∀ (ns processed : List Note) (lastOf : List (Nat × Nat)),
      (∀ p ∈ processed, ∀ m ∈ ns, p.type = m.type → p.tick < m.tick) →
      ns.Pairwise (fun a b => a.type = b.type → a.tick < b.tick) →
      NoteWalkInv processed lastOf →
      ∀ i j, i < j → j < (fixNoteOverlapsGo processed lastOf ns).length →
        ((fixNoteOverlapsGo processed lastOf ns).getD i dfltNote).type =
          ((fixNoteOverlapsGo processed lastOf ns).getD j dfltNote).type →
        ((fixNoteOverlapsGo processed lastOf ns).getD i dfltNote).tick +
          ((fixNoteOverlapsGo processed lastOf ns).getD i dfltNote).length ≤
          ((fixNoteOverlapsGo processed lastOf ns).getD j dfltNote).tick := by
  intro ns
  induction ns with
  | nil =>
    intro processed lastOf _ _ hinv i j hij hj htype
    exact hinv.2.2 i j hij hj htype
  | cons n ns ih =>
    intro processed lastOf hcross hpw hinv
    have hn_lt : ∀ m ∈ ns, n.type = m.type → n.tick < m.tick :=
      fun m hm => List.rel_of_pairwise_cons hpw hm
    rcases hlookup : lastOf.lookup n.type with _ | i
    · -- no previous note of this type
      have hstep : fixNoteOverlapsGo processed lastOf (n :: ns) =
          fixNoteOverlapsGo (processed ++ [n]) ((n.type, processed.length) :: lastOf) ns := by
        simp only [fixNoteOverlapsGo, hlookup]
      rw [hstep]
      apply ih
      · intro p hp m hm
        rcases List.mem_append.mp hp with hp2 | hp2
        · exact hcross p hp2 m (List.mem_cons_of_mem n hm)
        · have : p = n := by simpa using hp2
          subst this
          exact hn_lt m hm
      · exact hpw.tail
      · apply noteAppend_invariants processed lastOf n hinv
        intro i1 hi1 htype1
        exfalso
        have := hinv.2.1 i1 hi1
        rw [htype1, hlookup] at this
        cases this
    · -- a previous note of this type exists at index i
      have hprev_mem : processed.getD i dfltNote ∈ processed :=
        getD_mem_of_lt processed dfltNote i (hinv.1 n.type i hlookup).1
      have hprev_type : (processed.getD i dfltNote).type = n.type :=
        (hinv.1 n.type i hlookup).2.1
      have hprev_lt : (processed.getD i dfltNote).tick < n.tick :=
        hcross (processed.getD i dfltNote) hprev_mem n (List.mem_cons_self n ns) hprev_type
      by_cases hov : (processed.getD i dfltNote).tick + (processed.getD i dfltNote).length > n.tick
      · -- overlap: truncate the previous note, extend the current one
        have hstep : fixNoteOverlapsGo processed lastOf (n :: ns) =
            fixNoteOverlapsGo
              ((processed.set i { processed.getD i dfltNote with length := n.tick - (processed.getD i dfltNote).tick }) ++ [{ n with length := max n.length ((processed.getD i dfltNote).length - (n.tick - (processed.getD i dfltNote).tick)) }])
              ((n.type, processed.length) :: lastOf) ns := by
          simp only [fixNoteOverlapsGo, hlookup]
          rw [if_pos hov]
        rw [hstep]
        apply ih
        · intro p hp m hm
          rcases List.mem_append.mp hp with hp2 | hp2
          · rcases List.mem_or_eq_of_mem_set hp2 with hp3 | hp3
            · exact hcross p hp3 m (List.mem_cons_of_mem n hm)
            · subst hp3
              intro htm
              exact hcross (processed.getD i dfltNote) hprev_mem m
                (List.mem_cons_of_mem n hm) htm
          · have : p = { n with length := max n.length ((processed.getD i dfltNote).length - (n.tick - (processed.getD i dfltNote).tick)) } := by
              simpa using hp2
            subst this
            exact fun htm => hn_lt m hm htm
        · exact hpw.tail
        · exact noteSet_invariants processed lastOf n _ i hinv hlookup hprev_lt rfl rfl
      · -- no overlap: just append
        have hstep : fixNoteOverlapsGo processed lastOf (n :: ns) =
            fixNoteOverlapsGo (processed ++ [n]) ((n.type, processed.length) :: lastOf) ns := by
          simp only [fixNoteOverlapsGo, hlookup]
          rw [if_neg hov]
        rw [hstep]
        apply ih
        · intro p hp m hm
          rcases List.mem_append.mp hp with hp2 | hp2
          · exact hcross p hp2 m (List.mem_cons_of_mem n hm)
          · have : p = n := by simpa using hp2
            subst this
            exact hn_lt m hm
        · exact hpw.tail
        · apply noteAppend_invariants processed lastOf n hinv
          intro i1 hi1 htype1
          by_cases h1i : i1 = i
          · subst h1i
            omega
          · rcases Nat.lt_trichotomy i1 i with h | h | h
            · have := hinv.2.2 i1 i h (hinv.1 n.type i hlookup).1
                (htype1.trans hprev_type.symm)
              omega
            · exact absurd h h1i
            · exact absurd htype1 ((hinv.1 n.type i hlookup).2.2 i1 h hi1)

theorem getD_eq_getElem {α : Type} (l : List α) (d : α) (i : Nat) (h : i < l.length) :
    l.getD i d = l[i] := by
  rw [List.getD, List.get?_eq_getElem?, List.getElem?_eq_getElem h]
  rfl

theorem fixNoteGroup_types_strict (g : List Note) :
    (fixNoteGroup g).Pairwise (fun a b => a.type < b.type) ∧
    ∀ z ∈ fixNoteGroup g, z ∈ g := by
  have hsorted : (g.insertionSort noteSortRel).Pairwise noteSortRel :=
    List.sorted_insertionSort noteSortRel g
  have hle : (g.insertionSort noteSortRel).Pairwise (fun a b => a.type ≤ b.type) := by
    refine hsorted.imp ?_
    intro a b hab
    unfold noteSortRel at hab
    omega
  have hkey : ∀ a b : Note, (decide (a.type = b.type) = true) ↔ a.type = b.type := by
    intro a b; simp
  rcases removeDupBy_strict Note.type _ hkey _ hle with ⟨hstrict, hmem⟩
  refine ⟨hstrict, fun z hz => ?_⟩
  exact (List.Perm.mem_iff (List.perm_insertionSort noteSortRel g)).mp (hmem z hz)

theorem sortAndFixInvalidNoteOverlaps_separated (noteGroups : List (List Note))
    (hcross : noteGroups.Pairwise (fun g h => ∀ a ∈ g, ∀ b ∈ h, a.tick < b.tick)) :
    (sortAndFixInvalidNoteOverlaps noteGroups).Pairwise
      (fun a b => a.type = b.type → ¬ NoteOverlap a b) := by
  have hflat : ((noteGroups.map fixNoteGroup).flatten).Pairwise
      (fun a b => a.type = b.type → a.tick < b.tick) := by
    rw [List.pairwise_flatten]
    refine ⟨?_, ?_⟩
    · intro l hl
      rcases List.mem_map.mp hl with ⟨g, _, rfl⟩
      refine (fixNoteGroup_types_strict g).1.imp ?_
      intro a b hab htype
      omega
    · rw [List.pairwise_map]
      refine hcross.imp ?_
      intro g h hab a ha b hb _
      exact hab a ((fixNoteGroup_types_strict g).2 a ha) b ((fixNoteGroup_types_strict h).2 b hb)
  have hspec := fixNoteOverlapsGo_spec ((noteGroups.map fixNoteGroup).flatten) [] []
    (by intro p hp; cases hp) hflat
    ⟨(by intro t i hl; cases hl), (by intro j hj; simp at hj), (by intro i j _ hj; simp at hj)⟩
  unfold sortAndFixInvalidNoteOverlaps
  rw [List.pairwise_iff_getElem]
  intro i j hi hj hij htype
  have h1 := hspec i j hij hj
  rw [getD_eq_getElem _ dfltNote i (by omega), getD_eq_getElem _ dfltNote j hj] at h1
  have h2 := h1 htype
  intro hov
  unfold NoteOverlap at hov
  omega

theorem sortAndFixInvalidFlexLaneOverlaps_dedup (lanes : List FlexLane) :
    (sortAndFixInvalidFlexLaneOverlaps lanes).Pairwise
      (fun a b => ¬(a.tick = b.tick ∧ a.isDouble = b.isDouble)) := by
  have hsorted := List.sorted_insertionSort flexSortRel lanes
  have hle : (lanes.insertionSort flexSortRel).Pairwise
      (fun a b => (fun l : FlexLane => 2 * l.tick + (if l.isDouble then 1 else 0)) a ≤
        (fun l : FlexLane => 2 * l.tick + (if l.isDouble then 1 else 0)) b) := by
    refine hsorted.imp ?_
    intro a b hab
    unfold flexSortRel at hab
    cases ha : a.isDouble <;> cases hb : b.isDouble <;> simp [ha, hb] at hab ⊢ <;> omega
  have hkey : ∀ a b : FlexLane,
      ((decide (a.tick = b.tick) && decide (a.isDouble = b.isDouble)) = true) ↔
      ((fun l : FlexLane => 2 * l.tick + (if l.isDouble then 1 else 0)) a =
        (fun l : FlexLane => 2 * l.tick + (if l.isDouble then 1 else 0)) b) := by
    intro a b
    cases ha : a.isDouble <;> cases hb : b.isDouble <;> simp [ha, hb] <;> omega
  rcases removeDupBy_strict (fun l : FlexLane => 2 * l.tick + (if l.isDouble then 1 else 0))
    _ hkey _ hle with ⟨hstrict, _⟩
  refine hstrict.imp ?_
  intro a b hab hcon
  rw [hcon.1, hcon.2] at hab
  omega

/-! ## Claim C2: overlap freedom of the final output. -/

/-- C2 counterexample: flex lanes are NOT made overlap-free.  Two single
    lanes at ticks 0 (length 100) and 50 (length 10) pass through
    sortAndFixInvalidFlexLaneOverlaps unchanged and overlap on [50, 60). -/
theorem flexLane_overlap_not_repaired :
    sortAndFixInvalidFlexLaneOverlaps [⟨0, 100, false⟩, ⟨50, 10, false⟩] =
      [⟨0, 100, false⟩, ⟨50, 10, false⟩] ∧
    FlexOverlap ⟨0, 100, false⟩ ⟨50, 10, false⟩ ∧
    (⟨0, 100, false⟩ : FlexLane) ≠ ⟨50, 10, false⟩ := by
  refine ⟨by decide, ?_, by decide⟩
  unfold FlexOverlap
  decide

/-- C2 (corrected): overlap freedom holds for the note stream (per note
    type), the star-power table and the solo table — but NOT for the other
    two phrase tables: the flex-lane pass only removes duplicates with the
    same tick and isDouble (overlapping lanes survive, see the
    counterexample), and the drum-freestyle table is not repaired at all.
    Stated: (1) sortAndFixInvalidEventOverlaps always produces pairwise
    non-overlapping phrases; (2) sortAndFixInvalidFlexLaneOverlaps only
    guarantees pairwise distinct (tick, isDouble); (3) for tick-uniform
    groups sorted strictly by tick, sortAndFixInvalidNoteOverlaps produces
    notes with no two same-type notes overlapping. -/
theorem overlap_freedom_amended :
    (∀ events : List Phrase,
      (sortAndFixInvalidEventOverlaps events).Pairwise (fun a b => ¬ PhraseOverlap a b)) ∧
    (∀ lanes : List FlexLane,
      (sortAndFixInvalidFlexLaneOverlaps lanes).Pairwise
        (fun a b => ¬(a.tick = b.tick ∧ a.isDouble = b.isDouble))) ∧
    (∀ noteGroups : List (List Note),
      noteGroups.Pairwise (fun g h => ∀ a ∈ g, ∀ b ∈ h, a.tick < b.tick) →
      (sortAndFixInvalidNoteOverlaps noteGroups).Pairwise
        (fun a b => a.type = b.type → ¬ NoteOverlap a b)) := by
  refine ⟨?_, sortAndFixInvalidFlexLaneOverlaps_dedup, sortAndFixInvalidNoteOverlaps_separated⟩
  intro events
  refine (sortAndFixInvalidEventOverlaps_separated events).imp ?_
  intro a b hab hov
  unfold PhraseOverlap at hov
  omega

/-- Witness for overlap_freedom_amended: two overlapping same-type notes
    (green at tick 0 with length 100 and green at tick 50) come out
    overlap-free. -/
theorem overlap_freedom_amended_witness :
    ([[(⟨0, 100, 2, 0⟩ : Note)], [⟨50, 10, 2, 0⟩]].Pairwise
      (fun g h => ∀ a ∈ g, ∀ b ∈ h, a.tick < b.tick)) ∧
    (sortAndFixInvalidNoteOverlaps [[⟨0, 100, 2, 0⟩], [⟨50, 10, 2, 0⟩]]).Pairwise
      (fun a b => a.type = b.type → ¬ NoteOverlap a b) :=
  ⟨by decide,
    overlap_freedom_amended.2.2 [[⟨0, 100, 2, 0⟩], [⟨50, 10, 2, 0⟩]] (by decide)⟩

/-! ## Claim C3: chord snapping (snapChords, notes-parser.ts lines 586-646).
    A note group is a list of notes at one tick.  The walk keeps the first
    group; each later group is pushed as a new kept group when
    noteGroup[0].tick - lastNoteGroup[0].tick >= chord_snap_threshold, and
    otherwise merged into the last kept group: its notes' flags are
    overwritten (non-drums: from lastNoteGroup[0].flags; drums: per-type
    from the last kept group plus the disco-bit transfer), their ticks are
    set to lastNoteGroup[0].tick, and they are appended to the kept group. -/

def headFlags (g : List Note) : Nat :=
  match g with
  | [] => 0
  | n :: _ => n.flags

def discoNoteFlags : Nat := noteFlags.disco ||| noteFlags.discoNoflip

def findTypeFlags (g : List Note) (t : Nat) : Option Nat :=
  (g.find? (fun n => n.type == t)).map Note.flags

def snapDrumFlags (lastGroup : List Note) (n : Note) : Nat :=
  let f1 :=
    if n.type == noteTypes.kick then (findTypeFlags lastGroup noteTypes.kick).getD n.flags
    else if n.type == noteTypes.redDrum then (findTypeFlags lastGroup noteTypes.redDrum).getD n.flags
    else if n.type == noteTypes.yellowDrum then (findTypeFlags lastGroup noteTypes.yellowDrum).getD n.flags
    else if n.type == noteTypes.blueDrum then (findTypeFlags lastGroup noteTypes.blueDrum).getD n.flags
    else if n.type == noteTypes.greenDrum then (findTypeFlags lastGroup noteTypes.greenDrum).getD n.flags
    else n.flags
  if n.type == noteTypes.redDrum || n.type == noteTypes.yellowDrum then
    match findTypeFlags lastGroup noteTypes.redDrum, findTypeFlags lastGroup noteTypes.yellowDrum with
    | none, none => f1
    | r, y => (f1 &&& (4294967295 - discoNoteFlags)) ||| (((r.getD 0) ||| (y.getD 0)) &&& discoNoteFlags)
  else f1

def snapMerge (isDrums : Bool) (lastGroup g : List Note) : List Note :=
  let flagged :=
    if isDrums then g.map (fun n => { n with flags := snapDrumFlags lastGroup n })
    else g.map (fun n => { n with flags := headFlags lastGroup })
  lastGroup ++ flagged.map (fun n => { n with tick := headTick lastGroup })

def snapLoop (isDrums : Bool) (C : Int) (acc : List (List Note)) (last : List Note) :
    List (List Note) → List (List Note)
  | [] => acc ++ [last]
  | g :: rest =>
    if C ≤ (headTick g : Int) - (headTick last : Int) then
      snapLoop isDrums C (acc ++ [last]) g rest
    else
      snapLoop isDrums C acc (snapMerge isDrums last g) rest

def snapChords (noteGroups : List (List Note)) (C : Int) (isDrums : Bool) : List (List Note) :=
  if C ≤ 0 then noteGroups
  else match noteGroups with
    | [] => noteGroups
    | g :: rest => snapLoop isDrums C [] g rest

/-! Specification-side description of the snapping (for the refinement
    theorem): the groups are cut greedily into segments, a segment ending
    right before the first group whose tick is at least the threshold away
    from the SEGMENT HEAD's tick; every group of a segment after the head is
    merged into the head, each merged note keeping its own length but taking
    the head's tick and (non-drums) the head's first note's flags. -/

def snapTakeSeg (C : Int) (t0 : Nat) : List (List Note) → List (List Note) × List (List Note)
  | [] => ([], [])
  | g :: rest =>
    if C ≤ (headTick g : Int) - (t0 : Int) then ([], g :: rest)
    else
      let p := snapTakeSeg C t0 rest
      (g :: p.1, p.2)

theorem snapTakeSeg_snd_length_le (C : Int) (t0 : Nat) :
    ∀ l : List (List Note), (snapTakeSeg C t0 l).2.length ≤ l.length := by
  intro l
  induction l with
  | nil => simp [snapTakeSeg]
  | cons g rest ih =>
    show (if C ≤ (headTick g : Int) - (t0 : Int) then ([], g :: rest)
      else ((g :: (snapTakeSeg C t0 rest).1, (snapTakeSeg C t0 rest).2) :
        List (List Note) × List (List Note))).2.length ≤ (g :: rest).length
    by_cases hb : C ≤ (headTick g : Int) - (t0 : Int)
    · rw [if_pos hb]
    · rw [if_neg hb]
      simp only [List.length_cons]
      exact Nat.le_succ_of_le ih

def snapSegResult (seg0 : List Note) (merged : List (List Note)) : List Note :=
  seg0 ++ merged.flatten.map (fun n => { n with tick := headTick seg0, flags := headFlags seg0 })

def snapSpec (C : Int) (l : List (List Note)) : List (List Note) :=
  match l with
  | [] => []
  | g :: rest =>
    snapSegResult g (snapTakeSeg C (headTick g) rest).1 ::
      snapSpec C (snapTakeSeg C (headTick g) rest).2
termination_by l.length
decreasing_by
  simp only [List.length_cons]
  exact Nat.lt_succ_of_le (snapTakeSeg_snd_length_le _ _ _)

theorem snapSegResult_empty (g : List Note) : snapSegResult g [] = g := by
  simp [snapSegResult]

theorem headTick_snapSegResult (seg0 : List Note) (merged : List (List Note)) :
    headTick (snapSegResult seg0 merged) = headTick seg0 := by
  cases seg0 with
  | cons a t => simp [snapSegResult, headTick]
  | nil =>
    unfold snapSegResult
    rw [List.nil_append]
    cases hm : merged.flatten with
    | nil => rfl
    | cons n t => rfl

theorem headFlags_snapSegResult (seg0 : List Note) (merged : List (List Note)) :
    headFlags (snapSegResult seg0 merged) = headFlags seg0 := by
  cases seg0 with
  | cons a t => simp [snapSegResult, headFlags]
  | nil =>
    unfold snapSegResult
    rw [List.nil_append]
    cases hm : merged.flatten with
    | nil => rfl
    | cons n t => rfl

theorem snapMerge_snapSegResult (seg0 : List Note) (merged : List (List Note)) (g : List Note) :
    snapMerge false (snapSegResult seg0 merged) g = snapSegResult seg0 (merged ++ [g]) := by
  unfold snapMerge
  simp only [Bool.false_eq_true, if_false, List.map_map]
  rw [headTick_snapSegResult, headFlags_snapSegResult]
  unfold snapSegResult
  rw [List.flatten_append, List.map_append, ← List.append_assoc]
  simp [Function.comp]

theorem snapLoop_eq_snapSpec (C : Int) :
    ∀ (rest : List (List Note)) (seg0 : List Note) (merged acc : List (List Note)),
      snapLoop false C acc (snapSegResult seg0 merged) rest =
        acc ++ (snapSegResult seg0 (merged ++ (snapTakeSeg C (headTick seg0) rest).1) ::
          snapSpec C (snapTakeSeg C (headTick seg0) rest).2) := by
  intro rest
  induction rest with
  | nil =>
    intro seg0 merged acc
    show acc ++ [snapSegResult seg0 merged] = _
    rw [show snapTakeSeg C (headTick seg0) [] = ([], []) from rfl]
    rw [show snapSpec C [] = [] from by rw [snapSpec]]
    simp
  | cons g rest ih =>
    intro seg0 merged acc
    show (if C ≤ (headTick g : Int) - (headTick (snapSegResult seg0 merged) : Int) then
        snapLoop false C (acc ++ [snapSegResult seg0 merged]) g rest
      else snapLoop false C acc (snapMerge false (snapSegResult seg0 merged) g) rest) = _
    simp only [headTick_snapSegResult]
    by_cases hb : C ≤ (headTick g : Int) - (headTick seg0 : Int)
    · rw [if_pos hb]
      have h2 : snapTakeSeg C (headTick seg0) (g :: rest) = ([], g :: rest) := by
        show (if C ≤ (headTick g : Int) - (headTick seg0 : Int) then (([], g :: rest) :
            List (List Note) × List (List Note))
          else (g :: (snapTakeSeg C (headTick seg0) rest).1,
            (snapTakeSeg C (headTick seg0) rest).2)) = _
        rw [if_pos hb]
      rw [h2]
      have h3 := ih g [] (acc ++ [snapSegResult seg0 merged])
      rw [snapSegResult_empty] at h3
      rw [h3]
      rw [show snapSpec C (g :: rest) = snapSegResult g (snapTakeSeg C (headTick g) rest).1 ::
        snapSpec C (snapTakeSeg C (headTick g) rest).2 from by rw [snapSpec]]
      simp
    · rw [if_neg hb]
      have h2 : snapTakeSeg C (headTick seg0) (g :: rest) =
          (g :: (snapTakeSeg C (headTick seg0) rest).1, (snapTakeSeg C (headTick seg0) rest).2) := by
        show (if C ≤ (headTick g : Int) - (headTick seg0 : Int) then (([], g :: rest) :
            List (List Note) × List (List Note))
          else (g :: (snapTakeSeg C (headTick seg0) rest).1,
            (snapTakeSeg C (headTick seg0) rest).2)) = _
        rw [if_neg hb]
      rw [snapMerge_snapSegResult]
      have h3 := ih seg0 (merged ++ [g]) acc
      rw [h3, h2]
      simp

/-- C3 counterexample: the merged chord does NOT adopt the shortest of the
    merged note lengths.  Groups green(tick 100, len 10) and red(tick 105,
    len 50) snapped with threshold 10 on guitar, then run through the
    overlap repair, give green len 10 and red len 50 at tick 100 — the red
    note keeps its own length 50 instead of min(10, 50) = 10. -/
theorem snapChords_not_shortest_length :
    sortAndFixInvalidNoteOverlaps (snapChords [[⟨100, 10, 2, 1⟩], [⟨105, 50, 3, 2⟩]] 10 false) =
      [⟨100, 10, 2, 1⟩, ⟨100, 50, 3, 1⟩] ∧
    ¬ ∀ n ∈ sortAndFixInvalidNoteOverlaps
        (snapChords [[⟨100, 10, 2, 1⟩], [⟨105, 50, 3, 2⟩]] 10 false),
      n.length = min 10 50 := by
  constructor
  · decide
  · decide

/-- C3 (corrected): with threshold C > 0, snapChords on a non-drums
    instrument cuts the groups greedily into segments (a new segment starts
    at the first group at least C ticks after the current segment head's
    tick); each later group of a segment is merged into the head group, its
    notes taking the head's tick and the head group's first note's flags
    while KEEPING THEIR OWN LENGTHS (no shortest-length adoption).  Stated
    as equality with the specification-side description snapSpec. -/
theorem snapChords_eq_snapSpec (noteGroups : List (List Note)) (C : Int) (hC : 0 < C) :
    snapChords noteGroups C false = snapSpec C noteGroups := by
  unfold snapChords
  rw [if_neg (by omega)]
  cases noteGroups with
  | nil => rw [snapSpec]
  | cons g rest =>
    show snapLoop false C [] g rest = _
    have h := snapLoop_eq_snapSpec C rest g [] []
    rw [snapSegResult_empty] at h
    rw [h]
    rw [show snapSpec C (g :: rest) = snapSegResult g (snapTakeSeg C (headTick g) rest).1 ::
      snapSpec C (snapTakeSeg C (headTick g) rest).2 from by rw [snapSpec]]
    simp

/-- Witness for snapChords_eq_snapSpec at the spec's S4 example: groups at
    ticks 100, 105, 120 with threshold 10. -/
theorem snapChords_eq_snapSpec_witness :
    (0 : Int) < 10 ∧
    snapChords [[⟨100, 10, 2, 1⟩], [⟨105, 50, 3, 2⟩], [⟨120, 20, 4, 4⟩]] 10 false =
      snapSpec 10 [[⟨100, 10, 2, 1⟩], [⟨105, 50, 3, 2⟩], [⟨120, 20, 4, 4⟩]] :=
  ⟨by decide, snapChords_eq_snapSpec [[⟨100, 10, 2, 1⟩], [⟨105, 50, 3, 2⟩], [⟨120, 20, 4, 4⟩]]
    10 (by decide)⟩

/-! ## Claim C6: msTime monotonicity (getTimedTempos and
    setEventOrEventGroupMsTimes, notes-parser.ts lines 87-105 and 135-179).
    JS doubles are modelled as exact rationals; the claim is about the
    ordering of the computed times.  The index walker (lastTempoIndex over
    the tempo array) is modelled by the equivalent state (current tempo,
    remaining suffix of the tempo list); both msTime formulas in the source
    are the same expression, shared here as computeMsTime. -/

structure RawTempo where
  tick : Nat
  millibeatsPerMinute : ℚ
deriving DecidableEq, Repr

structure TimedTempo where
  tick : Nat
  millibeatsPerMinute : ℚ
  msTime : ℚ
deriving DecidableEq, Repr

structure TimedEvent where
  tick : Nat
  length : Nat
  msTime : ℚ
  msLength : ℚ
deriving DecidableEq, Repr

def dfltTimedEvent : TimedEvent := ⟨0, 0, 0, 0⟩

def computeMsTime (cur : TimedTempo) (tpb : Nat) (tick : Nat) : ℚ :=
  cur.msTime + ((tick : ℚ) - (cur.tick : ℚ)) * 1000 * 60000 /
    (cur.millibeatsPerMinute * (tpb : ℚ))

/-- The tempo-extraction stage of the .chart parser (part_005 lines
    123-139): reject a zero tempo, then prepend the default 120 BPM
    (120000 millibeats per minute) marker when the first tempo is not at
    tick 0. -/
def chartTemposStage (tempos : List RawTempo) : Except String (List RawTempo) :=
  match tempos.find? (fun t => decide (t.millibeatsPerMinute = 0)) with
  | some t => .error ("Invalid .chart file: Tempo at tick " ++ toString t.tick ++ " was zero.")
  | none =>
    match tempos with
    | [] => .ok [⟨0, 120000⟩]
    | t :: _ => if t.tick ≠ 0 then .ok (⟨0, 120000⟩ :: tempos) else .ok tempos

def getTimedTemposGo (tpb : Nat) (last : TimedTempo) : List RawTempo → List TimedTempo
  | [] => []
  | t :: rest =>
    let nt : TimedTempo := ⟨t.tick, t.millibeatsPerMinute, computeMsTime last tpb t.tick⟩
    nt :: getTimedTemposGo tpb nt rest

def getTimedTempos (tempos : List RawTempo) (tpb : Nat) : List TimedTempo :=
  match getTimedTemposGo tpb ⟨0, 120000, 0⟩ tempos with
  | [] => [⟨0, 120000, 0⟩]
  | t1 :: rest => if t1.tick = 0 then t1 :: rest else ⟨0, 120000, 0⟩ :: t1 :: rest

/-- The lastTempoIndex advancement loop: move to the next tempo while its
    tick is at most the event's tick. -/
def advanceTempos (cur : TimedTempo) (rest : List TimedTempo) (tick : Nat) :
    TimedTempo × List TimedTempo :=
  match rest with
  | [] => (cur, [])
  | t :: ts => if t.tick ≤ tick then advanceTempos t ts tick else (cur, t :: ts)

def setMsTimesGo (tpb : Nat) (cur : TimedTempo) (rest : List TimedTempo) :
    List (Nat × Nat) → List TimedEvent
  | [] => []
  | e :: es =>
    let p := advanceTempos cur rest e.1
    let msTime := computeMsTime p.1 tpb e.1
    let msLength :=
      if e.2 ≠ 0 then
        let q := advanceTempos p.1 p.2 (e.1 + e.2)
        q.1.msTime - msTime + (((e.1 + e.2 : Nat) : ℚ) - (q.1.tick : ℚ)) * 1000 * 60000 /
          (q.1.millibeatsPerMinute * (tpb : ℚ))
      else 0
    ⟨e.1, e.2, msTime, msLength⟩ :: setMsTimesGo tpb p.1 p.2 es

def setEventMsTimes (events : List (Nat × Nat)) (tempos : List TimedTempo) (tpb : Nat) :
    List TimedEvent :=
  match tempos with
  | [] => []
  | t :: ts => setMsTimesGo tpb t ts events

/-- The msTime the walker assigns to an event at the given tick, from a
    given walker state. -/
def msTimeOf (cur : TimedTempo) (rest : List TimedTempo) (tpb : Nat) (tick : Nat) : ℚ :=
  computeMsTime (advanceTempos cur rest tick).1 tpb tick

/-- Well-formedness of a walker state: positive tempo values, ticks sorted,
    and each tempo's msTime linked to its predecessor by the conversion
    formula (which is what getTimedTempos produces on sorted input). -/
def ChainOk (tpb : Nat) : TimedTempo → List TimedTempo → Prop
  | cur, [] => 0 < cur.millibeatsPerMinute
  | cur, t :: ts => 0 < cur.millibeatsPerMinute ∧ cur.tick ≤ t.tick ∧
      t.msTime = computeMsTime cur tpb t.tick ∧ ChainOk tpb t ts

theorem advanceTempos_cons (cur t : TimedTempo) (ts : List TimedTempo) (tick : Nat) :
    advanceTempos cur (t :: ts) tick =
      if t.tick ≤ tick then advanceTempos t ts tick else (cur, t :: ts) := rfl

theorem advanceTempos_advance (tk tk' : Nat) (h : tk ≤ tk') :
    ∀ (rest : List TimedTempo) (cur : TimedTempo),
      advanceTempos (advanceTempos cur rest tk).1 (advanceTempos cur rest tk).2 tk' =
        advanceTempos cur rest tk' := by
  intro rest
  induction rest with
  | nil => intro cur; rfl
  | cons t ts ih =>
    intro cur
    rw [advanceTempos_cons cur t ts tk]
    by_cases hb : t.tick ≤ tk
    · rw [if_pos hb, ih t, advanceTempos_cons cur t ts tk', if_pos (le_trans hb h)]
    · rw [if_neg hb]

theorem computeMsTime_self (cur : TimedTempo) (tpb : Nat) :
    computeMsTime cur tpb cur.tick = cur.msTime := by
  unfold computeMsTime
  simp

theorem computeMsTime_mono (cur : TimedTempo) (tpb : Nat) (htpb : 0 < tpb)
    (hrate : 0 < cur.millibeatsPerMinute) (t1 t2 : Nat) (h2 : t1 ≤ t2) :
    computeMsTime cur tpb t1 ≤ computeMsTime cur tpb t2 := by
  unfold computeMsTime
  have hd : 0 < cur.millibeatsPerMinute * (tpb : ℚ) := by
    apply mul_pos hrate
    exact_mod_cast htpb
  have ht : (t1 : ℚ) ≤ (t2 : ℚ) := by exact_mod_cast h2
  have hnum : ((t1 : ℚ) - (cur.tick : ℚ)) * 1000 * 60000 ≤
      ((t2 : ℚ) - (cur.tick : ℚ)) * 1000 * 60000 := by linarith
  exact add_le_add_left (div_le_div_of_nonneg_right hnum (le_of_lt hd)) _

theorem setMsTimesGo_proj (tpb : Nat) :
    ∀ (events : List (Nat × Nat)) (cur : TimedTempo) (rest : List TimedTempo),
      events.Pairwise (fun a b => a.1 ≤ b.1) →
      (setMsTimesGo tpb cur rest events).map (fun ev => (ev.tick, ev.msTime)) =
        events.map (fun e => (e.1, msTimeOf cur rest tpb e.1)) := by
  intro events
  induction events with
  | nil => intro cur rest _; rfl
  | cons e es ih =>
    intro cur rest hp
    rcases List.pairwise_cons.mp hp with ⟨hhead, htail⟩
    show (e.1, msTimeOf cur rest tpb e.1) ::
        (setMsTimesGo tpb (advanceTempos cur rest e.1).1 (advanceTempos cur rest e.1).2 es).map
          (fun ev => (ev.tick, ev.msTime)) =
      (e.1, msTimeOf cur rest tpb e.1) :: es.map (fun x => (x.1, msTimeOf cur rest tpb x.1))
    refine congrArg _ ?_
    rw [ih _ _ htail]
    refine List.map_congr_left ?_
    intro a ha
    have hadv := advanceTempos_advance e.1 a.1 (hhead a ha) rest cur
    unfold msTimeOf
    rw [hadv]

theorem msTimeOf_lower (tpb : Nat) (htpb : 0 < tpb) :
    ∀ (rest : List TimedTempo) (cur : TimedTempo), ChainOk tpb cur rest →
      ∀ x, cur.tick ≤ x → cur.msTime ≤ msTimeOf cur rest tpb x := by
  intro rest
  induction rest with
  | nil =>
    intro cur hc x hx
    show cur.msTime ≤ computeMsTime cur tpb x
    have h1 := computeMsTime_mono cur tpb htpb hc cur.tick x hx
    rw [computeMsTime_self] at h1
    exact h1
  | cons u us ih =>
    intro cur hc x hx
    obtain ⟨hrate, hle, hlink, hchain⟩ := hc
    unfold msTimeOf
    rw [advanceTempos_cons]
    by_cases hb : u.tick ≤ x
    · rw [if_pos hb]
      have h1 : cur.msTime ≤ u.msTime := by
        rw [hlink]
        have h2 := computeMsTime_mono cur tpb htpb hrate cur.tick u.tick hle
        rw [computeMsTime_self] at h2
        exact h2
      exact le_trans h1 (ih u hchain x hb)
    · rw [if_neg hb]
      have h1 := computeMsTime_mono cur tpb htpb hrate cur.tick x hx
      rw [computeMsTime_self] at h1
      exact h1

theorem msTimeOf_mono (tpb : Nat) (htpb : 0 < tpb) :
    ∀ (rest : List TimedTempo) (cur : TimedTempo), ChainOk tpb cur rest →
      ∀ tk tk', cur.tick ≤ tk → tk ≤ tk' →
        msTimeOf cur rest tpb tk ≤ msTimeOf cur rest tpb tk' := by
  intro rest
  induction rest with
  | nil =>
    intro cur hc tk tk' h1 h2
    show computeMsTime cur tpb tk ≤ computeMsTime cur tpb tk'
    exact computeMsTime_mono cur tpb htpb hc tk tk' h2
  | cons u us ih =>
    intro cur hc tk tk' h1 h2
    obtain ⟨hrate, hle, hlink, hchain⟩ := hc
    unfold msTimeOf
    rw [advanceTempos_cons, advanceTempos_cons]
    by_cases hbtk : u.tick ≤ tk
    · rw [if_pos hbtk, if_pos (le_trans hbtk h2)]
      exact ih u hchain tk tk' hbtk h2
    · rw [if_neg hbtk]
      by_cases hbtk2 : u.tick ≤ tk'
      · rw [if_pos hbtk2]
        have ha : computeMsTime cur tpb tk ≤ computeMsTime cur tpb u.tick :=
          computeMsTime_mono cur tpb htpb hrate tk u.tick (Nat.le_of_lt (Nat.lt_of_not_le hbtk))
        have hb2 := msTimeOf_lower tpb htpb us u hchain tk' hbtk2
        unfold msTimeOf at hb2
        calc computeMsTime cur tpb tk ≤ computeMsTime cur tpb u.tick := ha
          _ = u.msTime := hlink.symm
          _ ≤ computeMsTime (advanceTempos u us tk').1 tpb tk' := hb2
      · rw [if_neg hbtk2]
        exact computeMsTime_mono cur tpb htpb hrate tk tk' h2

theorem getTimedTemposGo_chain (tpb : Nat) :
    ∀ (raw : List RawTempo) (last : TimedTempo),
      0 < last.millibeatsPerMinute →
      (∀ r ∈ raw, 0 < r.millibeatsPerMinute) →
      (∀ r ∈ raw, last.tick ≤ r.tick) →
      raw.Pairwise (fun a b => a.tick ≤ b.tick) →
      ChainOk tpb last (getTimedTemposGo tpb last raw) := by
  intro raw
  induction raw with
  | nil =>
    intro last h _ _ _
    exact h
  | cons t ts ih =>
    intro last hlast hpos hge hsort
    rcases List.pairwise_cons.mp hsort with ⟨hhead, htail⟩
    show ChainOk tpb last ((⟨t.tick, t.millibeatsPerMinute, computeMsTime last tpb t.tick⟩ :
        TimedTempo) :: getTimedTemposGo tpb ⟨t.tick, t.millibeatsPerMinute,
        computeMsTime last tpb t.tick⟩ ts)
    refine ⟨hlast, hge t (List.mem_cons_self t ts), rfl, ?_⟩
    exact ih ⟨t.tick, t.millibeatsPerMinute, computeMsTime last tpb t.tick⟩
      (hpos t (List.mem_cons_self t ts))
      (fun r hr => hpos r (List.mem_cons_of_mem t hr))
      (fun r hr => hhead r hr) htail

theorem getTimedTempos_spec (tpb : Nat) (raw : List RawTempo)
    (hpos : ∀ r ∈ raw, 0 < r.millibeatsPerMinute)
    (hsort : raw.Pairwise (fun a b => a.tick ≤ b.tick)) :
    ∃ cur rest, getTimedTempos raw tpb = cur :: rest ∧ cur.tick = 0 ∧ ChainOk tpb cur rest := by
  have hchain := getTimedTemposGo_chain tpb raw ⟨0, 120000, 0⟩ (by norm_num) hpos
    (fun r _ => Nat.zero_le _) hsort
  unfold getTimedTempos
  rcases hg : getTimedTemposGo tpb ⟨0, 120000, 0⟩ raw with _ | ⟨t1, rest⟩
  · exact ⟨⟨0, 120000, 0⟩, [], rfl, rfl, (by norm_num : (0 : ℚ) < 120000)⟩
  · rw [hg] at hchain
    obtain ⟨hb, hle, hlink, hch⟩ := hchain
    dsimp only
    by_cases h0 : t1.tick = 0
    · rw [if_pos h0]
      exact ⟨t1, rest, rfl, h0, hch⟩
    · rw [if_neg h0]
      exact ⟨⟨0, 120000, 0⟩, t1 :: rest, rfl, rfl,
        (by norm_num : (0 : ℚ) < 120000), hle, hlink, hch⟩

/-- C6 counterexample: the .chart parser does not sort SyncTrack tempo
    lines, and getTimedTempos/setEventMsTimes walk them in file order, so a
    chart whose tempo lines are out of order ("1000 = B 1" before
    "0 = B 240000", resolution 192) produces a DECREASING msTime: the event
    at tick 999 gets 41625/16 ms (≈ 2601.56) while the event at tick 1000
    gets -1249984375/4 ms (≈ -3.1e8). -/
theorem msTime_not_monotone_counterexample :
    chartTemposStage [⟨1000, 1⟩, ⟨0, 240000⟩] =
      .ok [⟨0, 120000⟩, ⟨1000, 1⟩, ⟨0, 240000⟩] ∧
    setEventMsTimes [(999, 0), (1000, 0)]
        (getTimedTempos [⟨0, 120000⟩, ⟨1000, 1⟩, ⟨0, 240000⟩] 192) 192 =
      [⟨999, 0, 41625/16, 0⟩, ⟨1000, 0, -1249984375/4, 0⟩] ∧
    ((999 : Nat) < 1000 ∧ (-1249984375/4 : ℚ) < 41625/16) := by
  refine ⟨rfl, ?_, by decide, by norm_num⟩
  norm_num [setEventMsTimes, setMsTimesGo, advanceTempos, getTimedTempos, getTimedTemposGo,
    computeMsTime]

/-- C6 (corrected): the computed msTime of events is nondecreasing in tick,
    and equal at equal ticks, PROVIDED the tempo list fed to getTimedTempos
    is sorted by tick (with positive tempo values and positive resolution)
    and the events are walked in tick order.  The .mid parser emits tempos
    in absolute-time order so the property holds there, but the .chart
    parser keeps SyncTrack file order, and out-of-order tempo lines break
    the property (see the counterexample). -/
theorem msTime_monotone_amended (tpb : Nat) (htpb : 0 < tpb) (raw : List RawTempo)
    (hpos : ∀ r ∈ raw, 0 < r.millibeatsPerMinute)
    (hsort : raw.Pairwise (fun a b => a.tick ≤ b.tick))
    (events : List (Nat × Nat)) (hev : events.Pairwise (fun a b => a.1 ≤ b.1)) :
    (setEventMsTimes events (getTimedTempos raw tpb) tpb).Pairwise
      (fun a b => a.msTime ≤ b.msTime ∧ (a.tick = b.tick → a.msTime = b.msTime)) := by
  obtain ⟨cur, rest, heq, h0, hchain⟩ := getTimedTempos_spec tpb raw hpos hsort
  rw [heq]
  show (setMsTimesGo tpb cur rest events).Pairwise _
  have hmap := setMsTimesGo_proj tpb events cur rest hev
  have hpw : ((setMsTimesGo tpb cur rest events).map (fun ev => (ev.tick, ev.msTime))).Pairwise
      (fun p q => p.2 ≤ q.2 ∧ (p.1 = q.1 → p.2 = q.2)) := by
    rw [hmap, List.pairwise_map]
    refine hev.imp ?_
    intro a b hab
    constructor
    · exact msTimeOf_mono tpb htpb rest cur hchain a.1 b.1 (h0 ▸ Nat.zero_le a.1) hab
    · intro heq2
      rw [heq2]
  rw [List.pairwise_map] at hpw
  exact hpw

/-- Witness for msTime_monotone_amended: a sorted two-tempo chart with
    events at ticks 0, 10, 10. -/
theorem msTime_monotone_amended_witness :
    (0 < 192 ∧ (∀ r ∈ [(⟨0, 120000⟩ : RawTempo), ⟨5, 240000⟩], 0 < r.millibeatsPerMinute) ∧
      [(⟨0, 120000⟩ : RawTempo), ⟨5, 240000⟩].Pairwise (fun a b => a.tick ≤ b.tick) ∧
      [((0 : Nat), (0 : Nat)), (10, 0), (10, 0)].Pairwise (fun a b => a.1 ≤ b.1)) ∧
    (setEventMsTimes [(0, 0), (10, 0), (10, 0)]
        (getTimedTempos [⟨0, 120000⟩, ⟨5, 240000⟩] 192) 192).Pairwise
      (fun a b => a.msTime ≤ b.msTime ∧ (a.tick = b.tick → a.msTime = b.msTime)) :=
  ⟨⟨by decide, by decide, by decide, by decide⟩,
    msTime_monotone_amended 192 (by decide) [⟨0, 120000⟩, ⟨5, 240000⟩] (by decide) (by decide)
      [(0, 0), (10, 0), (10, 0)] (by decide)⟩

/-! ## Claim C10: which tracks survive into trackData.
    .chart (part_005 lines 177-230): fileSections is picked by the keys of
    trackNameMap and every present recognized section is mapped to one
    trackData entry, unconditionally.  .mid (midi-parser.ts lines 148-203):
    each recognized instrument track is expanded to the four difficulties
    and then `.filter(track => track.trackEvents.length > 0)` drops every
    entry whose trackEvents list is empty.
    A .chart section's lines are modelled after the line regex
    `(\d+) = ([A-Z]+) (value)( \d+)?` has been applied: lines that do not
    match are dropped by the source's compact() and are simply absent here;
    `Number(lengthString) || 0` makes the missing length 0.  The event-type
    table getEventType is abstracted as a parameter (the theorems hold for
    every such table, in particular the source's). -/

/-- A matched .chart track line: tick, type code, value, length. -/
structure ChartLine where
  tick : Nat
  typeCode : String
  value : String
  length : Nat
deriving DecidableEq, Repr

/-- The 48 recognized section names, in source declaration order. -/
def trackNameMap : List (String × Instrument × Difficulty) :=
  [("ExpertSingle", .guitar, .expert), ("HardSingle", .guitar, .hard),
   ("MediumSingle", .guitar, .medium), ("EasySingle", .guitar, .easy),
   ("ExpertDoubleGuitar", .guitarcoop, .expert), ("HardDoubleGuitar", .guitarcoop, .hard),
   ("MediumDoubleGuitar", .guitarcoop, .medium), ("EasyDoubleGuitar", .guitarcoop, .easy),
   ("ExpertDoubleRhythm", .rhythm, .expert), ("HardDoubleRhythm", .rhythm, .hard),
   ("MediumDoubleRhythm", .rhythm, .medium), ("EasyDoubleRhythm", .rhythm, .easy),
   ("ExpertDoubleBass", .bass, .expert), ("HardDoubleBass", .bass, .hard),
   ("MediumDoubleBass", .bass, .medium), ("EasyDoubleBass", .bass, .easy),
   ("ExpertDrums", .drums, .expert), ("HardDrums", .drums, .hard),
   ("MediumDrums", .drums, .medium), ("EasyDrums", .drums, .easy),
   ("ExpertKeyboard", .keys, .expert), ("HardKeyboard", .keys, .hard),
   ("MediumKeyboard", .keys, .medium), ("EasyKeyboard", .keys, .easy),
   ("ExpertGHLGuitar", .guitarghl, .expert), ("HardGHLGuitar", .guitarghl, .hard),
   ("MediumGHLGuitar", .guitarghl, .medium), ("EasyGHLGuitar", .guitarghl, .easy),
   ("ExpertGHLCoop", .guitarcoopghl, .expert), ("HardGHLCoop", .guitarcoopghl, .hard),
   ("MediumGHLCoop", .guitarcoopghl, .medium), ("EasyGHLCoop", .guitarcoopghl, .easy),
   ("ExpertGHLRhythm", .rhythmghl, .expert), ("HardGHLRhythm", .rhythmghl, .hard),
   ("MediumGHLRhythm", .rhythmghl, .medium), ("EasyGHLRhythm", .rhythmghl, .easy),
   ("ExpertGHLBass", .bassghl, .expert), ("HardGHLBass", .bassghl, .hard),
   ("MediumGHLBass", .bassghl, .medium), ("EasyGHLBass", .bassghl, .easy)]

/-- A raw trackData entry as both parsers build it (before timing). -/
structure RawTrack where
  instrument : Instrument
  difficulty : Difficulty
  starPowerSections : List TrackEventR
  rejectedStarPowerSections : List TrackEventR
  soloSections : List TrackEventR
  flexLanes : List FlexLane
  drumFreestyleSections : List FreestyleSection
  trackEvents : List TrackEventR
deriving DecidableEq, Repr

def emptyRawTrack (instrument : Instrument) (difficulty : Difficulty) : RawTrack :=
  ⟨instrument, difficulty, [], [], [], [], [], []⟩

/-- One step of the classification loop both parsers run over the merged
    events (the if/else-if chain pushing into the result's buckets). -/
def classifyStep (firstCodaTick : Option Nat) (acc : RawTrack) (e : TrackEventR) : RawTrack :=
  if e.type = eventTypes.starPower then
    { acc with starPowerSections := acc.starPowerSections ++ [e] }
  else if e.type = eventTypes.rejectedStarPower then
    { acc with rejectedStarPowerSections := acc.rejectedStarPowerSections ++ [e] }
  else if e.type = eventTypes.soloSection then
    { acc with soloSections := acc.soloSections ++ [e] }
  else if e.type = eventTypes.flexLaneSingle ∨ e.type = eventTypes.flexLaneDouble then
    { acc with flexLanes := acc.flexLanes ++
      [⟨e.tick, e.length, decide (e.type = eventTypes.flexLaneDouble)⟩] }
  else if e.type = eventTypes.freestyleSection then
    { acc with drumFreestyleSections := acc.drumFreestyleSections ++
      [⟨e.tick, e.length, match firstCodaTick with | none => false | some c => decide (c ≤ e.tick)⟩] }
  else
    { acc with trackEvents := acc.trackEvents ++ [e] }

def classifyTrackEvents (firstCodaTick : Option Nat) (acc : RawTrack) :
    List TrackEventR → RawTrack
  | [] => acc
  | e :: es => classifyTrackEvents firstCodaTick (classifyStep firstCodaTick acc e) es

/-- orderBy('tick') on the matched events (lodash orderBy is a stable
    sort). -/
def tickLeR (a b : TrackEventR) : Prop := a.tick ≤ b.tick

instance : DecidableRel tickLeR := fun a b => inferInstanceAs (Decidable (a.tick ≤ b.tick))

def orderByTick (evs : List TrackEventR) : List TrackEventR := evs.insertionSort tickLeR

/-- Build one .chart trackData entry from a present section's matched
    lines: type the lines, drop the untyped ones, sort by tick, merge the
    solo pairs and classify. -/
def buildChartTrack (getET : String → String → Instrument → Difficulty → Option Nat)
    (firstCodaTick : Option Nat) (instrument : Instrument) (difficulty : Difficulty)
    (lines : List ChartLine) : RawTrack :=
  classifyTrackEvents firstCodaTick (emptyRawTrack instrument difficulty)
    (mergeSoloEvents (orderByTick (lines.filterMap (fun l =>
      match getET l.typeCode l.value instrument difficulty with
      | none => none
      | some ty => some ⟨l.tick, l.length, ty⟩))))

def chartTrackDataGo (getET : String → String → Instrument → Difficulty → Option Nat)
    (firstCodaTick : Option Nat) (fileSections : List (String × List ChartLine)) :
    List (String × Instrument × Difficulty) → List RawTrack
  | [] => []
  | e :: rest =>
    match fileSections.lookup e.1 with
    | none => chartTrackDataGo getET firstCodaTick fileSections rest
    | some lines =>
      buildChartTrack getET firstCodaTick e.2.1 e.2.2 lines ::
        chartTrackDataGo getET firstCodaTick fileSections rest

/-- The .chart trackData stage: one entry per recognized present section. -/
def chartTrackData (getET : String → String → Instrument → Difficulty → Option Nat)
    (firstCodaTick : Option Nat) (fileSections : List (String × List ChartLine)) :
    List RawTrack :=
  chartTrackDataGo getET firstCodaTick fileSections trackNameMap

def diffGet (dl : DifficultyLists) : Difficulty → List TrackEventR
  | .expert => dl.expert
  | .hard => dl.hard
  | .medium => dl.medium
  | .easy => dl.easy

/-- The .mid trackData stage, from the per-instrument per-difficulty event
    streams (the upstream distribution and fix passes have already run):
    each instrument track is expanded to the four difficulties, classified,
    and entries with an empty trackEvents list are dropped. -/
def midiTrackData (firstCodaTick : Option Nat)
    (tracks : List (Instrument × DifficultyLists)) : List RawTrack :=
  ((tracks.map (fun t => difficulties.map (fun d =>
      classifyTrackEvents firstCodaTick (emptyRawTrack t.1 d) (diffGet t.2 d)))).flatten).filter
    (fun track => decide (0 < track.trackEvents.length))

theorem classifyStep_fields (firstCodaTick : Option Nat) (acc : RawTrack) (e : TrackEventR) :
    (classifyStep firstCodaTick acc e).instrument = acc.instrument ∧
    (classifyStep firstCodaTick acc e).difficulty = acc.difficulty := by
  unfold classifyStep
  refine ⟨?_, ?_⟩
  · split
    · rfl
    · split
      · rfl
      · split
        · rfl
        · split
          · rfl
          · split
            · rfl
            · rfl
  · split
    · rfl
    · split
      · rfl
      · split
        · rfl
        · split
          · rfl
          · split
            · rfl
            · rfl

theorem classifyTrackEvents_fields (firstCodaTick : Option Nat) :
    ∀ (evs : List TrackEventR) (acc : RawTrack),
      (classifyTrackEvents firstCodaTick acc evs).instrument = acc.instrument ∧
      (classifyTrackEvents firstCodaTick acc evs).difficulty = acc.difficulty := by
  intro evs
  induction evs with
  | nil => intro acc; exact ⟨rfl, rfl⟩
  | cons e es ih =>
    intro acc
    show (classifyTrackEvents firstCodaTick (classifyStep firstCodaTick acc e) es).instrument =
        acc.instrument ∧
      (classifyTrackEvents firstCodaTick (classifyStep firstCodaTick acc e) es).difficulty =
        acc.difficulty
    rcases ih (classifyStep firstCodaTick acc e) with ⟨h1, h2⟩
    rcases classifyStep_fields firstCodaTick acc e with ⟨h3, h4⟩
    exact ⟨h1.trans h3, h2.trans h4⟩

theorem chartTrackDataGo_mem (getET : String → String → Instrument → Difficulty → Option Nat)
    (firstCodaTick : Option Nat) (fileSections : List (String × List ChartLine)) :
    ∀ (nm : List (String × Instrument × Difficulty))
      (e : String × Instrument × Difficulty) (lines : List ChartLine),
      e ∈ nm → fileSections.lookup e.1 = some lines →
      ∃ tr ∈ chartTrackDataGo getET firstCodaTick fileSections nm,
        tr.instrument = e.2.1 ∧ tr.difficulty = e.2.2 := by
  intro nm
  induction nm with
  | nil =>
    intro e lines hmem _
    cases hmem
  | cons a rest ih =>
    intro e lines hmem hlook
    rcases List.mem_cons.mp hmem with heq | hmem2
    · subst heq
      rw [show chartTrackDataGo getET firstCodaTick fileSections (e :: rest) =
          (match fileSections.lookup e.1 with
           | none => chartTrackDataGo getET firstCodaTick fileSections rest
           | some lines =>
             buildChartTrack getET firstCodaTick e.2.1 e.2.2 lines ::
               chartTrackDataGo getET firstCodaTick fileSections rest) from rfl, hlook]
      refine ⟨buildChartTrack getET firstCodaTick e.2.1 e.2.2 lines, List.mem_cons_self _ _, ?_⟩
      exact classifyTrackEvents_fields firstCodaTick _ (emptyRawTrack e.2.1 e.2.2)
    · rcases ih e lines hmem2 hlook with ⟨tr, htr, hfields⟩
      refine ⟨tr, ?_, hfields⟩
      rw [show chartTrackDataGo getET firstCodaTick fileSections (a :: rest) =
          (match fileSections.lookup a.1 with
           | none => chartTrackDataGo getET firstCodaTick fileSections rest
           | some lines =>
             buildChartTrack getET firstCodaTick a.2.1 a.2.2 lines ::
               chartTrackDataGo getET firstCodaTick fileSections rest) from rfl]
      rcases hl : fileSections.lookup a.1 with _ | ls
      · exact htr
      · exact List.mem_cons_of_mem _ htr

theorem chartTrackDataGo_length (getET : String → String → Instrument → Difficulty → Option Nat)
    (firstCodaTick : Option Nat) (fileSections : List (String × List ChartLine)) :
    ∀ nm : List (String × Instrument × Difficulty),
      (chartTrackDataGo getET firstCodaTick fileSections nm).length =
        nm.countP (fun e => (fileSections.lookup e.1).isSome) := by
  intro nm
  induction nm with
  | nil => rfl
  | cons a rest ih =>
    rw [show chartTrackDataGo getET firstCodaTick fileSections (a :: rest) =
        (match fileSections.lookup a.1 with
         | none => chartTrackDataGo getET firstCodaTick fileSections rest
         | some lines =>
           buildChartTrack getET firstCodaTick a.2.1 a.2.2 lines ::
             chartTrackDataGo getET firstCodaTick fileSections rest) from rfl]
    rw [List.countP_cons]
    rcases hl : fileSections.lookup a.1 with _ | ls
    · simp [ih, hl]
    · simp [ih, hl]

/-- A guitar/expert track with zero notes and zero phrases. -/
def notelessTrack : TrackData := ⟨.guitar, .expert, [], [], [], [], []⟩

/-- A parsed chart containing only the noteless track. -/
def notelessChart : ParsedChart := ⟨192, [], [], [notelessTrack]⟩

/-- A parsed chart containing no tracks at all. -/
def noTrackChart : ParsedChart := ⟨192, [], [], []⟩

/-- C10 (confirmed): the parsers differ in which tracks survive.  (1) The
    .chart stage emits an entry (with the mapped instrument and difficulty)
    for EVERY recognized section present in the file, regardless of its
    contents — in particular for sections with zero playable notes — and
    (2) emits exactly one entry per present recognized section name.
    (3) Every entry of the .mid stage has a non-empty trackEvents list
    (difficulties whose event list is empty after distribution are
    filtered out).  (4) Consequently calculateTrackHash succeeds on a chart
    whose trackData carries a noteless track but errors when the requested
    track is absent from trackData. -/
theorem chart_vs_midi_track_presence :
    (∀ (getET : String → String → Instrument → Difficulty → Option Nat)
       (firstCodaTick : Option Nat) (fileSections : List (String × List ChartLine))
       (e : String × Instrument × Difficulty) (lines : List ChartLine),
       e ∈ trackNameMap → fileSections.lookup e.1 = some lines →
       ∃ tr ∈ chartTrackData getET firstCodaTick fileSections,
         tr.instrument = e.2.1 ∧ tr.difficulty = e.2.2) ∧
    (∀ (getET : String → String → Instrument → Difficulty → Option Nat)
       (firstCodaTick : Option Nat) (fileSections : List (String × List ChartLine)),
       (chartTrackData getET firstCodaTick fileSections).length =
         trackNameMap.countP (fun e => (fileSections.lookup e.1).isSome)) ∧
    (∀ (firstCodaTick : Option Nat) (tracks : List (Instrument × DifficultyLists)),
       ∀ tr ∈ midiTrackData firstCodaTick tracks, tr.trackEvents ≠ []) ∧
    (calculateTrackHash notelessChart .guitar .expert =
        .ok (serializeFoundTrack notelessChart notelessTrack) ∧
      calculateTrackHash noTrackChart .guitar .expert =
        .error "Track with specified instrument or difficulty was not found.") := by
  refine ⟨?_, ?_, ?_, rfl, rfl⟩
  · intro getET firstCodaTick fileSections e lines hmem hlook
    exact chartTrackDataGo_mem getET firstCodaTick fileSections trackNameMap e lines hmem hlook
  · intro getET firstCodaTick fileSections
    exact chartTrackDataGo_length getET firstCodaTick fileSections trackNameMap
  · intro firstCodaTick tracks tr htr hnil
    rcases List.mem_filter.mp htr with ⟨_, hp⟩
    rw [hnil] at hp
    simp at hp

/-- Witness for chart_vs_midi_track_presence: a .chart file containing only
    an empty ExpertSingle section still yields a guitar/expert entry. -/
theorem chart_vs_midi_track_presence_witness :
    (("ExpertSingle", Instrument.guitar, Difficulty.expert) ∈ trackNameMap ∧
      [("ExpertSingle", ([] : List ChartLine))].lookup "ExpertSingle" = some []) ∧
    ∃ tr ∈ chartTrackData (fun _ _ _ _ => none) none [("ExpertSingle", [])],
      tr.instrument = Instrument.guitar ∧ tr.difficulty = Difficulty.expert :=
  ⟨⟨by decide, by decide⟩,
    chart_vs_midi_track_presence.1 (fun _ _ _ _ => none) none [("ExpertSingle", [])]
      ("ExpertSingle", .guitar, .expert) [] (by decide) (by decide)⟩

end ScanChart
